import Mathlib

/-!
# Verification of the GW2API request/cache orchestration core

A shallow embedding of the request/cache orchestration layer of the
`node-gw2-api` client (canonical variant: the `cache-manager` based class
with API-key support, HTTP 206 handling and partial-failure degradation).

External collaborators (HTTP transport, JSON decoder, cache store) are
modelled as parameters, exactly at the interface the core consumes:
the transport's answer is a `Response` (status code, headers, raw body),
the JSON decoder is a function from body strings to decoded values, and
the cache store is a function from key strings to stored values.

JavaScript-specific behaviour that the core relies on is modelled
explicitly: truthiness tests (`if (cacheResult)`, `if (!params.lang)`,
`if (!ids)`), `JSON.stringify` of a flat parameter object (insertion
order of properties, `undefined`-valued properties dropped, strings
quoted with `"` and `\` escaped), template-literal coercion of ids to
strings, `Array.prototype.sort` with the numeric comparator, and
`Object.keys` enumeration of integer-like keys in ascending order.
-/

namespace GW2

/-! ## Decimal rendering of numbers (template literals / JSON numbers) -/

/-- The decimal digit characters. -/
def dChar : Nat → Char
  | 0 => '0' | 1 => '1' | 2 => '2' | 3 => '3' | 4 => '4'
  | 5 => '5' | 6 => '6' | 7 => '7' | 8 => '8' | _ => '9'

/-- Numeric value of a decimal digit character (inverse of `dChar`). -/
def dVal : Char → Nat
  | '0' => 0 | '1' => 1 | '2' => 2 | '3' => 3 | '4' => 4
  | '5' => 5 | '6' => 6 | '7' => 7 | '8' => 8 | _ => 9

/-- Fueled most-significant-first decimal rendering of a natural number. -/
def natDigitsAux : Nat → Nat → List Char
  | 0, _ => []
  | fuel + 1, n =>
    if n < 10 then [dChar n]
    else natDigitsAux fuel (n / 10) ++ [dChar (n % 10)]

/-- Decimal digit list of a natural number, as produced by JavaScript
template literals and `JSON.stringify` for (integer) numbers. -/
def natDigits (n : Nat) : List Char := natDigitsAux (n + 1) n

/-- Decimal string of a natural number. -/
def natStr (n : Nat) : String := ⟨natDigits n⟩

/-- Reads a digit list back into a number (for injectivity of `natDigits`). -/
def valOfDigits (l : List Char) : Nat := l.foldl (fun a c => 10 * a + dVal c) 0

/-! ## JSON string escaping (the structurally relevant part of
`JSON.stringify` quoting: `"` and `\` are backslash-escaped) -/

/-- Escape a single character for a JSON string literal. -/
def escChar (c : Char) : List Char :=
  if c = '"' ∨ c = '\\' then ['\\', c] else [c]

/-- Escape a character list for a JSON string literal. -/
def escList : List Char → List Char
  | [] => []
  | c :: cs => escChar c ++ escList cs

/-- A JSON-quoted string: opening quote, escaped content, closing quote. -/
def quoteChars (s : List Char) : List Char := '"' :: (escList s ++ ['"'])

/-! ## Query-parameter objects and `JSON.stringify`

A query-parameter object is a flat JavaScript object; we model it as an
insertion-ordered association list.  Values are the ones the client ever
places there: strings (lang, comma-joined id lists), integer numbers
(page, page_size, quantity, a single numeric id), booleans (a non-array
scalar id is passed through unvalidated) and `undefined` (the per-endpoint
methods pass `page`/`page_size` through even when absent). -/

/-- A JavaScript query-parameter value. -/
inductive PVal where
  | str (s : String)
  | num (n : Nat)
  | boolean (b : Bool)
  | undefined
deriving DecidableEq, Repr

/-- An insertion-ordered flat parameter object. -/
abbrev Params := List (String × PVal)

/-- JavaScript truthiness of a parameter value
(`"" `, `0`, `false` and `undefined` are falsy). -/
def truthyPVal : PVal → Bool
  | .str s => s ≠ ""
  | .num n => n ≠ 0
  | .boolean b => b
  | .undefined => false

/-- `JSON.stringify` rendering of one value (`undefined` renders nothing:
the property is dropped). -/
def pvalChars : PVal → Option (List Char)
  | .str s => some (quoteChars s.data)
  | .num n => some (natDigits n)
  | .boolean true => some ['t', 'r', 'u', 'e']
  | .boolean false => some ['f', 'a', 'l', 's', 'e']
  | .undefined => none

/-- `JSON.stringify` rendering of one property (`"key":value`). -/
def fieldChars (k : String) (v : PVal) : Option (List Char) :=
  (pvalChars v).map (fun vc => quoteChars k.data ++ ':' :: vc)

/-- Comma-join of rendered fragments, as in `JSON.stringify` and
`Array.prototype.join(',')`. -/
def joinComma : List (List Char) → List Char
  | [] => []
  | [f] => f
  | f :: fs => f ++ ',' :: joinComma fs

/-- Character-level `JSON.stringify` of a flat parameter object. -/
def stringifyChars (ps : Params) : List Char :=
  '{' :: (joinComma (ps.filterMap (fun kv => fieldChars kv.1 kv.2)) ++ ['}'])

/-- `JSON.stringify` of a flat parameter object. -/
def jsStringify (ps : Params) : String := ⟨stringifyChars ps⟩

/-- First value stored under a property name (JavaScript property read). -/
def getProp (ps : Params) (k : String) : PVal :=
  match ps.find? (fun kv => kv.1 = k) with
  | some kv => kv.2
  | none => .undefined

/-- JavaScript property assignment: overwrite in place if the property
exists (its position is retained), else append it. -/
def setProp (ps : Params) (k : String) (v : PVal) : Params :=
  if ps.any (fun kv => kv.1 = k) then
    ps.map (fun kv => if kv.1 = k then (k, v) else kv)
  else ps ++ [(k, v)]

/-- Client configuration (constructor defaults: lang "en", ttl 1800 s,
at most 1000 cached objects; `||` treats falsy overrides as absent). -/
structure Config where
  defaultLang : String
  cacheTimeout : Nat
  maxCacheObjects : Nat
deriving DecidableEq, Repr

/-- Constructor normalisation: `config.defaultLang || "en"` etc. -/
def mkConfig (lang : Option String) (timeout maxObjs : Option Nat) : Config :=
  { defaultLang := match lang with
      | some s => if s = "" then "en" else s
      | none => "en"
    cacheTimeout := match timeout with
      | some t => if t = 0 then 1800 else t
      | none => 1800
    maxCacheObjects := match maxObjs with
      | some m => if m = 0 then 1000 else m
      | none => 1000 }

/-- `if (!params.lang) params.lang = this.config.defaultLang;` -/
def langNormalize (cfg : Config) (ps : Params) : Params :=
  if truthyPVal (getProp ps "lang") then ps
  else setProp ps "lang" (.str cfg.defaultLang)

/-- Cache-key derivation shared by `_apiRequest` and `_apiDetailsRequest`:
`path#apiKey:K#params:J` when an API key is supplied, else
`path#params:J`, with `J` the `JSON.stringify` of the parameter object. -/
def cacheKeyChars (path : String) (apiKey : Option String) (ps : Params) :
    List Char :=
  match apiKey with
  | some k =>
      path.data ++ ('#' :: 'a' :: 'p' :: 'i' :: 'K' :: 'e' :: 'y' :: ':' :: k.data)
        ++ ('#' :: 'p' :: 'a' :: 'r' :: 'a' :: 'm' :: 's' :: ':' :: stringifyChars ps)
  | none =>
      path.data ++ ('#' :: 'p' :: 'a' :: 'r' :: 'a' :: 'm' :: 's' :: ':' :: stringifyChars ps)

/-- The cache key as a string. -/
def cacheKeyOf (path : String) (apiKey : Option String) (ps : Params) :
    String := ⟨cacheKeyChars path apiKey ps⟩

/-! ### Injectivity facts about the key derivation -/

/-- `undefined`-valued properties do not contribute to the serialization. -/
def dropUndefined (ps : Params) : Params := ps.filter (fun kv => kv.2 ≠ .undefined)

/-! ## JSON values, transport responses and the error model -/

/-- A decoded JSON value (collection responses cache and return these). -/
inductive JVal where
  | null
  | boolean (b : Bool)
  | num (n : Nat)
  | str (s : String)
  | arr (l : List JVal)
  | obj (fields : List (String × JVal))

/-- JavaScript truthiness of a decoded JSON value. -/
def truthyJ : JVal → Bool
  | .null => false
  | .boolean b => b
  | .num n => n ≠ 0
  | .str s => s ≠ ""
  | .arr _ => true
  | .obj _ => true

/-- Truthiness of a cache-store read (`undefined` on a miss is falsy). -/
def truthyOpt : Option JVal → Bool
  | some v => truthyJ v
  | none => false

/-- The pagination headers `_request` reads (absent headers are fine). -/
structure Headers where
  pageSize : Option String
  pageTotal : Option String
  resultCount : Option String
  resultTotal : Option String
deriving DecidableEq, Repr

/-- What the transport yields for one request: status code, headers, body. -/
structure Response where
  statusCode : Nat
  headers : Headers
  body : String
deriving DecidableEq, Repr

/-- Errors of the core: a non-200/206 upstream status (status code and raw
body), or a body that failed JSON decoding (raw body). -/
inductive JsError where
  | upstream (status : Nat) (body : String)
  | malformed (body : String)
deriving DecidableEq, Repr

/-- Pagination metadata of the response envelope built by `_request`. -/
structure Meta where
  pageSize : Option String
  pageTotal : Option String
  resultCount : Option String
  resultTotal : Option String
  httpStatus : Nat

/-- The success value of `_request`: metadata plus the decoded body. -/
structure Envelope where
  meta : Meta
  data : JVal

/-- `_request` (collection shape): reject unless the status is 200 or 206,
decode the body (the JSON decoder is an external collaborator, passed as a
function), and wrap the result in the meta envelope. -/
def requestC (decode : String → Option JVal) (resp : Response) :
    Except JsError Envelope :=
  if resp.statusCode = 200 ∨ resp.statusCode = 206 then
    match decode resp.body with
    | some v =>
        .ok { meta := { pageSize := resp.headers.pageSize
                        pageTotal := resp.headers.pageTotal
                        resultCount := resp.headers.resultCount
                        resultTotal := resp.headers.resultTotal
                        httpStatus := resp.statusCode }
              data := v }
    | none => .error (.malformed resp.body)
  else .error (.upstream resp.statusCode resp.body)

/-! ## The collection orchestrator (`_apiRequest`)

The promise returned by `_apiRequest` always resolves: the rejection
handler `(requestFailure) => { return requestFailure; }` converts a
rejection into a resolution whose value is the error object. -/

/-- A value the collection promise resolves with: either decoded data or
the error object handed back by the rejection handler. -/
inductive CollValue where
  | dataV (v : JVal)
  | errV (e : JsError)

/-- Settlement of the collection promise. -/
inductive CollResult where
  | resolvedV (v : CollValue)
  | rejectedE (e : JsError)

/-- Observable effects of one `_apiRequest` call: its settlement, the cache
keys read, the transport requests issued (their query parameters), and the
cache writes performed. -/
structure CollOutcome where
  result : CollResult
  probes : List String
  calls : List Params
  writes : List (String × JVal)

/-- The miss path of `_apiRequest`: call the transport, then either cache
and return the decoded data, or resolve with the error object. -/
def collMiss (params : Params) (ck : String)
    (decode : String → Option JVal) (resp : Response) : CollOutcome :=
  match requestC decode resp with
  | .ok env =>
      { result := .resolvedV (.dataV env.data), probes := [ck],
        calls := [params], writes := [(ck, env.data)] }
  | .error e =>
      { result := .resolvedV (.errV e), probes := [ck],
        calls := [params], writes := [] }

/-- The cache key `_apiRequest`/`_apiDetailsRequest` compute after
defaulting the language. -/
def requestCK (cfg : Config) (path : String) (params0 : Params)
    (apiKey : Option String) : String :=
  cacheKeyOf path apiKey (langNormalize cfg params0)

/-- `_apiRequest` (after the JavaScript argument shuffle that turns a
non-object `params` into the API key): default the language, derive the
cache key, serve a truthy cached value without any transport call, else
fetch, cache on success, and resolve with the error object on failure. -/
def apiRequest (cfg : Config) (path : String) (params0 : Params)
    (apiKey : Option String) (cache : String → Option JVal)
    (decode : String → Option JVal) (resp : Response) : CollOutcome :=
  let params := langNormalize cfg params0
  let ck := requestCK cfg path params0 apiKey
  match cache ck with
  | some v =>
      if truthyJ v then
        { result := .resolvedV (.dataV v), probes := [ck],
          calls := [], writes := [] }
      else collMiss params ck decode resp
  | none => collMiss params ck decode resp

/-- Replaying a list of cache writes onto a cache store (later writes win). -/
def applyWrites (c : String → Option α) (ws : List (String × α)) :
    String → Option α :=
  ws.foldl (fun acc kv => fun k => if k = kv.1 then some kv.2 else acc k) c

/-! ## The detail orchestrator (`_apiDetailsRequest`) -/

/-- A detail object: the upstream returns objects carrying their own `id`
field; the payload stands for the rest of the object. -/
structure Obj where
  id : Nat
  payload : String
deriving DecidableEq, Repr

/-- A non-array `ids` argument (a JavaScript scalar): a numeric id, a
string, or a boolean (nothing is validated in this variant). -/
inductive SVal where
  | num (n : Nat)
  | str (s : String)
  | boolean (b : Bool)
deriving DecidableEq, Repr

/-- The `ids` argument of a detail fetch: an array of numeric ids or a
scalar. -/
inductive IdsArg where
  | arr (l : List Nat)
  | scalar (v : SVal)
deriving DecidableEq, Repr

/-- JavaScript truthiness of a scalar id (`0`, `""`, `false` are falsy). -/
def truthySVal : SVal → Bool
  | .num n => n ≠ 0
  | .str s => s ≠ ""
  | .boolean b => b

/-- `ids.length <= 0` on a scalar: only strings have a `length`; for
numbers and booleans the comparison with `undefined` is false. -/
def svalLenLeZero : SVal → Bool
  | .str s => s.length = 0
  | _ => false

/-- Template-literal coercion of a scalar to its key fragment. -/
def svalKeyStr : SVal → String
  | .num n => natStr n
  | .str s => s
  | .boolean true => "true"
  | .boolean false => "false"

/-- The query-parameter value a scalar id is passed as. -/
def svalToPVal : SVal → PVal
  | .num n => .num n
  | .str s => .str s
  | .boolean b => .boolean b

/-- What the JSON decoder yields for a detail response: an array of
objects, or a single object. -/
inductive DetailData where
  | arr (objs : List Obj)
  | single (o : Obj)
deriving DecidableEq, Repr

/-- `_request` at the detail shape (same status rules; the meta envelope
is dropped because the detail orchestrator only reads `.data`). -/
def requestDetail (decodeD : String → Option DetailData) (resp : Response) :
    Except JsError DetailData :=
  if resp.statusCode = 200 ∨ resp.statusCode = 206 then
    match decodeD resp.body with
    | some d => .ok d
    | none => .error (.malformed resp.body)
  else .error (.upstream resp.statusCode resp.body)

/-- Stable insertion (before the first strictly greater element), the
sorted result of `ids.sort((a, b) => a - b)`. -/
def insertLe (a : Nat) : List Nat → List Nat
  | [] => [a]
  | b :: bs => if a ≤ b then a :: b :: bs else b :: insertLe a bs

/-- Ascending numeric sort of the id list. -/
def sortIds : List Nat → List Nat
  | [] => []
  | a :: as => insertLe a (sortIds as)

/-- Stable insertion of an object by its `id` field. -/
def insertByID (a : Obj) : List Obj → List Obj
  | [] => [a]
  | b :: bs => if a.id ≤ b.id then a :: b :: bs else b :: insertByID a bs

/-- `objects.sort((a, b) => a.id - b.id)`. -/
def sortObjs : List Obj → List Obj
  | [] => []
  | a :: as => insertByID a (sortObjs as)

/-- The per-id cache key: `cacheKey#id`. -/
def perIdKey (ck : String) (i : Nat) : String := ck ++ "#" ++ natStr i

/-- `objectLookup[k] = o`: overwrite the binding if the key is present,
else append it (JavaScript object assignment). -/
def lkInsert (m : List (Nat × Obj)) (k : Nat) (o : Obj) : List (Nat × Obj) :=
  if m.any (fun p => p.1 = k) then
    m.map (fun p => if p.1 = k then (k, o) else p)
  else m ++ [(k, o)]

/-- Reading one binding of the object lookup. -/
def lkFind (m : List (Nat × Obj)) (k : Nat) : Option Obj :=
  match m.find? (fun p => p.1 = k) with
  | some p => some p.2
  | none => none

/-- `Object.keys(objectLookup).map(key => objectLookup[key])`: integer-like
keys enumerate in ascending numeric order. -/
def jsObjectValues (m : List (Nat × Obj)) : List Obj :=
  (sortIds (m.map Prod.fst)).filterMap (lkFind m)

/-- The ids of the sorted request whose per-id probe missed. -/
def missingIds (cache : String → Option Obj) (ck : String) (l : List Nat) :
    List Nat :=
  (sortIds l).filter (fun i => (cache (perIdKey ck i)).isNone)

/-- The object lookup populated from the per-id probes that hit
(iterated in sorted request order, JavaScript loop order). -/
def lkOfCached (cache : String → Option Obj) (ck : String) (l : List Nat) :
    List (Nat × Obj) :=
  ((sortIds l).filterMap
      (fun i => (cache (perIdKey ck i)).map (fun o => (i, o)))).foldl
    (fun m p => lkInsert m p.1 p.2) []

/-- The comma-join of an id list (`ids.join(',')`). -/
def joinIds (l : List Nat) : String := ⟨joinComma (l.map natDigits)⟩

/-- `_idListToParams`: arrays become a comma-joined `ids` parameter (also
one-element arrays); scalars become a single `id` parameter. -/
def idListToParams : IdsArg → Params
  | .arr l => [("ids", .str (joinIds l))]
  | .scalar v => [("id", svalToPVal v)]

/-- A value the detail promise resolves with: an array of objects, a
single object, the error object handed back by the rejection handler, or
`undefined` (the empty-string-scalar corner). -/
inductive DetailValue where
  | objs (l : List Obj)
  | obj (o : Obj)
  | err (e : JsError)
  | undefined
deriving DecidableEq, Repr

/-- Settlement of the detail promise. -/
inductive DetailResult where
  | resolvedV (v : DetailValue)
  | rejectedE (e : JsError)
deriving DecidableEq, Repr

/-- Observable effects of one `_apiDetailsRequest` call. -/
structure DetailOutcome where
  result : DetailResult
  probes : List String
  calls : List Params
  writes : List (String × Obj)
deriving DecidableEq, Repr

/-- `_setCacheObjects`: a single object is cached under `key#obj.id`; an
array is sorted in place by `id` and each element cached under its own
`id` (taken from the object, not the request). -/
def setCacheObjects (ck : String) : DetailData → List (String × Obj)
  | .single o => [(perIdKey ck o.id, o)]
  | .arr objs => (sortObjs objs).map (fun o => (perIdKey ck o.id, o))

/-- The fetch leg shared by the array and scalar paths: call the transport
for the given id parameters and merge into the accumulated lookup.  On a
non-array response the data is returned as is; on failure the call
resolves with the cached subset if any id was cached, else with the error
object itself. -/
def detailFetch (ck : String) (qp : Params) (lk0 : List (Nat × Obj))
    (probes : List String) (decodeD : String → Option DetailData)
    (resp : Response) : DetailOutcome :=
  match requestDetail decodeD resp with
  | .ok (.single o) =>
      { result := .resolvedV (.obj o), probes := probes,
        calls := [qp], writes := [(perIdKey ck o.id, o)] }
  | .ok (.arr objs) =>
      let so := sortObjs objs
      let m := so.foldl (fun m o => lkInsert m o.id o) lk0
      { result := .resolvedV (.objs (jsObjectValues m)), probes := probes,
        calls := [qp], writes := so.map (fun o => (perIdKey ck o.id, o)) }
  | .error e =>
      if lk0.isEmpty then
        { result := .resolvedV (.err e), probes := probes,
          calls := [qp], writes := [] }
      else
        { result := .resolvedV (.objs (jsObjectValues lk0)), probes := probes,
          calls := [qp], writes := [] }

/-- `_apiDetailsRequest` (after the same argument shuffle as
`_apiRequest`): sort an array of ids ascending, probe the cache per id,
serve everything from cache when nothing is missing, else fetch exactly
the missing ids and merge; scalars probe one key (the bare cache key when
the scalar is falsy) and are fetched under a single `id` parameter. -/
def apiDetailsRequest (cfg : Config) (path : String) (ids0 : IdsArg)
    (params0 : Params) (apiKey : Option String)
    (cache : String → Option Obj) (decodeD : String → Option DetailData)
    (resp : Response) : DetailOutcome :=
  let ck := requestCK cfg path params0 apiKey
  match ids0 with
  | .arr l =>
      let sl := sortIds l
      let keys := sl.map (perIdKey ck)
      let probes := sl.map (fun i => cache (perIdKey ck i))
      let miss := missingIds cache ck l
      if miss.isEmpty then
        { result := .resolvedV (.objs (probes.filterMap (fun x => x))),
          probes := keys, calls := [], writes := [] }
      else
        detailFetch ck (idListToParams (.arr miss)) (lkOfCached cache ck l)
          keys decodeD resp
  | .scalar v =>
      if truthySVal v then
        let k := ck ++ "#" ++ svalKeyStr v
        match cache k with
        | some o =>
            { result := .resolvedV (.obj o), probes := [k],
              calls := [], writes := [] }
        | none =>
            if svalLenLeZero v then
              { result := .resolvedV .undefined, probes := [k],
                calls := [], writes := [] }
            else detailFetch ck (idListToParams (.scalar v)) [] [k] decodeD resp
      else
        match cache ck with
        | some o =>
            { result := .resolvedV (.obj o), probes := [ck],
              calls := [], writes := [] }
        | none =>
            if svalLenLeZero v then
              { result := .resolvedV .undefined, probes := [ck],
                calls := [], writes := [] }
            else detailFetch ck (idListToParams (.scalar v)) [] [ck] decodeD resp

/-- The pairs the cached probes contribute to the lookup. -/
def cachedPairs (cache : String → Option Obj) (ck : String) (l : List Nat) :
    List (Nat × Obj) :=
  (sortIds l).filterMap (fun i => (cache (perIdKey ck i)).map (fun o => (i, o)))

/-! ### Unfolding the array branch of the detail orchestrator -/

/-- The merged lookup after a successful array fetch: the freshly fetched
objects (sorted by id, as `_setCacheObjects` sorts in place) inserted over
the cached bindings, each under its own `id` field. -/
def mergeLookup (cache : String → Option Obj) (ck : String) (l : List Nat)
    (fetched : List Obj) : List (Nat × Obj) :=
  (sortObjs fetched).foldl (fun m o => lkInsert m o.id o) (lkOfCached cache ck l)

/-! ## Concrete fixtures for instantiating the theorems -/

/-- A client with the default configuration. -/
def cfgEx : Config := ⟨"en", 1800, 1000⟩

/-- The cache key of an unauthenticated "items" detail request. -/
def ckEx : String := requestCK cfgEx "items" [] none

def obj15 : Obj := ⟨15, "A"⟩

def obj2016 : Obj := ⟨2016, "B"⟩

/-- A detail cache holding the id-15 and id-2016 objects. -/
def cacheBoth : String → Option Obj := fun k =>
  if k = perIdKey ckEx 15 then some obj15
  else if k = perIdKey ckEx 2016 then some obj2016
  else none

/-- A detail cache holding only the id-15 object. -/
def cache15only : String → Option Obj := fun k =>
  if k = perIdKey ckEx 15 then some obj15 else none

/-- An empty detail cache. -/
def cacheNoObj : String → Option Obj := fun _ => none

def respOK : Response := ⟨200, ⟨none, none, none, none⟩, "x"⟩

def resp206 : Response := ⟨206, ⟨none, none, none, none⟩, "x"⟩

def respFail : Response := ⟨500, ⟨none, none, none, none⟩, "oops"⟩

/-- A decoder that fails on every body. -/
def decodeNone : String → Option DetailData := fun _ => none

/-- A decoder answering with the id-2016 object. -/
def decode2016 : String → Option DetailData := fun _ => some (.arr [obj2016])

/-- A decoder answering with the id-15 object. -/
def decode15 : String → Option DetailData := fun _ => some (.arr [obj15])

/-- A collection decoder answering a number. -/
def decodeCollNum : String → Option JVal := fun _ => some (.num 7)

/-- An empty collection cache. -/
def cacheCollEmpty : String → Option JVal := fun _ => none

/-- A collection cache storing JSON `null` under every key. -/
def cacheCollNull : String → Option JVal := fun _ => some .null

def paramsOrderA : Params :=
  [("page", .num 1), ("page_size", .num 2), ("lang", .str "en")]

def paramsOrderB : Params :=
  [("page_size", .num 2), ("page", .num 1), ("lang", .str "en")]

theorem dVal_dChar {d : Nat} (h : d < 10) : dVal (dChar d) = d := by
  interval_cases d <;> rfl

theorem valOfDigits_append (l : List Char) (c : Char) :
    valOfDigits (l ++ [c]) = 10 * valOfDigits l + dVal c := by
  simp [valOfDigits, List.foldl_append]

theorem valOfDigits_natDigitsAux :
    ∀ fuel n, n ≤ fuel → valOfDigits (natDigitsAux (fuel + 1) n) = n := by
  intro fuel
  induction fuel with
  | zero =>
    intro n hn
    have h0 : n = 0 := Nat.le_zero.mp hn
    subst h0
    simp [natDigitsAux, valOfDigits, dVal_dChar]
  | succ f ih =>
    intro n hn
    by_cases h10 : n < 10
    · simp [natDigitsAux, h10, valOfDigits, dVal_dChar h10]
    · have hrec : n / 10 ≤ f := by
        have h1 : n / 10 ≤ (f + 1) / 10 := Nat.div_le_div_right hn
        have h2 : (f + 1) / 10 ≤ f := by omega
        omega
      have : natDigitsAux (f + 1 + 1) n
          = natDigitsAux (f + 1) (n / 10) ++ [dChar (n % 10)] := by
        simp [natDigitsAux, h10]
      rw [this, valOfDigits_append, ih (n / 10) hrec,
        dVal_dChar (Nat.mod_lt n (by omega))]
      omega

theorem valOfDigits_natDigits (n : Nat) : valOfDigits (natDigits n) = n :=
  valOfDigits_natDigitsAux n n (Nat.le_refl n)

theorem natDigits_injective : Function.Injective natDigits := by
  intro a b h
  have := congrArg valOfDigits h
  rwa [valOfDigits_natDigits, valOfDigits_natDigits] at this

theorem dChar_mem (d : Nat) :
    dChar d ∈ ['0', '1', '2', '3', '4', '5', '6', '7', '8', '9'] := by
  match d with
  | 0 | 1 | 2 | 3 | 4 | 5 | 6 | 7 | 8 => simp [dChar]
  | d + 9 => simp [dChar]

theorem natDigitsAux_all_digits :
    ∀ fuel n c, c ∈ natDigitsAux fuel n →
      c ∈ ['0', '1', '2', '3', '4', '5', '6', '7', '8', '9'] := by
  intro fuel
  induction fuel with
  | zero => intro n c hc; simp [natDigitsAux] at hc
  | succ f ih =>
    intro n c hc
    by_cases h10 : n < 10
    · simp [natDigitsAux, h10] at hc
      exact hc ▸ dChar_mem n
    · simp [natDigitsAux, h10] at hc
      rcases hc with hc | hc
      · exact ih _ _ hc
      · exact hc ▸ dChar_mem (n % 10)

theorem natDigits_ne_nil (n : Nat) : natDigits n ≠ [] := by
  unfold natDigits natDigitsAux
  by_cases h10 : n < 10 <;> simp [h10]

theorem escList_injective : Function.Injective escList := by
  intro s
  induction s with
  | nil =>
    intro t h
    cases t with
    | nil => rfl
    | cons d ds =>
      exfalso
      simp only [escList] at h
      by_cases hd : d = '"' ∨ d = '\\' <;> simp [escChar, hd] at h
  | cons c cs ih =>
    intro t h
    cases t with
    | nil =>
      exfalso
      simp only [escList] at h
      by_cases hc : c = '"' ∨ c = '\\' <;> simp [escChar, hc] at h
    | cons d ds =>
      simp only [escList] at h
      by_cases hc : c = '"' ∨ c = '\\' <;> by_cases hd : d = '"' ∨ d = '\\'
      · simp only [escChar, if_pos hc, if_pos hd, List.cons_append,
          List.nil_append, List.cons.injEq] at h
        obtain ⟨-, hcd, hrest⟩ := h
        rw [hcd, ih hrest]
      · exfalso
        simp only [escChar, if_pos hc, if_neg hd, List.cons_append,
          List.nil_append, List.cons.injEq] at h
        rcases hc with hc | hc
        · exact hd (Or.inr (by rw [← h.1]))
        · exact hd (Or.inr (by rw [← h.1]))
      · exfalso
        simp only [escChar, if_neg hc, if_pos hd, List.cons_append,
          List.nil_append, List.cons.injEq] at h
        exact hc (Or.inr h.1)
      · simp only [escChar, if_neg hc, if_neg hd, List.cons_append,
          List.nil_append, List.cons.injEq] at h
        rw [h.1, ih h.2]

theorem quoteChars_injective : Function.Injective quoteChars := by
  intro s t h
  simp only [quoteChars, List.cons.injEq, true_and] at h
  exact escList_injective (List.append_cancel_right h)

theorem fieldChars_eq_none {k : String} {v : PVal} :
    fieldChars k v = none ↔ v = .undefined := by
  cases v <;> simp [fieldChars, pvalChars]
  rename_i b; cases b <;> simp

theorem filterMap_fieldChars_dropUndefined (ps : Params) :
    (dropUndefined ps).filterMap (fun kv => fieldChars kv.1 kv.2)
      = ps.filterMap (fun kv => fieldChars kv.1 kv.2) := by
  induction ps with
  | nil => rfl
  | cons kv rest ih =>
    unfold dropUndefined at ih ⊢
    rw [List.filter_cons]
    by_cases hu : kv.2 = PVal.undefined
    · have hnone : fieldChars kv.1 kv.2 = none := fieldChars_eq_none.mpr hu
      rw [if_neg (by simp [hu]), List.filterMap_cons, hnone]
      exact ih
    · rw [if_pos (by simp [hu]), List.filterMap_cons, List.filterMap_cons]
      cases hfc : fieldChars kv.1 kv.2 with
      | none => exact absurd (fieldChars_eq_none.mp hfc) hu
      | some fc => rw [ih]

theorem stringifyChars_dropUndefined (ps : Params) :
    stringifyChars (dropUndefined ps) = stringifyChars ps := by
  unfold stringifyChars
  rw [filterMap_fieldChars_dropUndefined]

theorem joinComma_cons_of_ne_nil (a : List Char) {l : List (List Char)}
    (h : l ≠ []) : joinComma (a :: l) = a ++ ',' :: joinComma l := by
  cases l with
  | nil => exact absurd rfl h
  | cons b bs => simp [joinComma]

/-- Splitting a comma-join around one distinguished fragment. -/
theorem joinComma_split (A B : List (List Char)) (x : List Char) :
    joinComma (A ++ x :: B)
      = (if A.isEmpty then [] else joinComma A ++ [','])
        ++ x
        ++ (if B.isEmpty then [] else ',' :: joinComma B) := by
  induction A with
  | nil =>
    cases B with
    | nil => simp [joinComma]
    | cons b bs => simp [joinComma]
  | cons a as ih =>
    have h1 : (a :: as) ++ x :: B = a :: (as ++ x :: B) := rfl
    rw [h1, joinComma_cons_of_ne_nil a (by simp), ih]
    cases as with
    | nil => simp [joinComma, List.append_assoc]
    | cons a2 as2 =>
      rw [joinComma_cons_of_ne_nil a (by simp)]
      simp [List.append_assoc]

theorem not_mem_natDigits {c : Char}
    (hc : c ∉ ['0', '1', '2', '3', '4', '5', '6', '7', '8', '9']) (n : Nat) :
    c ∉ natDigits n := fun h => hc (natDigitsAux_all_digits _ _ _ h)

/-- Rendered values are never empty and are distinguished by their first
character class (quote, digit, `t`, `f`), hence rendering is injective on
defined values. -/
theorem pvalChars_injective {v w : PVal} (hv : v ≠ .undefined) (hw : w ≠ .undefined)
    (h : pvalChars v = pvalChars w) : v = w := by
  cases v with
  | undefined => exact absurd rfl hv
  | str s =>
    cases w with
    | undefined => exact absurd rfl hw
    | str t =>
      simp only [pvalChars, Option.some.injEq] at h
      have hd : s.data = t.data := quoteChars_injective h
      cases s; cases t
      exact congrArg (fun l => PVal.str ⟨l⟩) hd
    | num m =>
      exfalso
      simp only [pvalChars, Option.some.injEq, quoteChars] at h
      exact not_mem_natDigits (c := '"') (by decide) m (h ▸ List.mem_cons_self _ _)
    | boolean b =>
      exfalso
      cases b <;> simp [pvalChars, quoteChars] at h
  | num n =>
    cases w with
    | undefined => exact absurd rfl hw
    | str t =>
      exfalso
      simp only [pvalChars, Option.some.injEq, quoteChars] at h
      exact not_mem_natDigits (c := '"') (by decide) n (by rw [h]; exact List.mem_cons_self _ _)
    | num m =>
      simp only [pvalChars, Option.some.injEq] at h
      rw [natDigits_injective h]
    | boolean b =>
      exfalso
      cases b <;> simp only [pvalChars, Option.some.injEq] at h
      · exact not_mem_natDigits (c := 'f') (by decide) n (by rw [h]; decide)
      · exact not_mem_natDigits (c := 't') (by decide) n (by rw [h]; decide)
  | boolean b =>
    cases w with
    | undefined => exact absurd rfl hw
    | str t =>
      exfalso
      cases b <;> simp [pvalChars, quoteChars] at h
    | num m =>
      exfalso
      cases b <;> simp only [pvalChars, Option.some.injEq] at h
      · exact not_mem_natDigits (c := 'f') (by decide) m (by rw [← h]; decide)
      · exact not_mem_natDigits (c := 't') (by decide) m (by rw [← h]; decide)
    | boolean c =>
      cases b <;> cases c <;> simp [pvalChars] at h ⊢

/-! ## Properties of the sorting and merge machinery -/

theorem insertLe_perm (a : Nat) (l : List Nat) :
    (insertLe a l).Perm (a :: l) := by
  induction l with
  | nil => exact List.Perm.refl _
  | cons b bs ih =>
    unfold insertLe
    by_cases hab : a ≤ b
    · rw [if_pos hab]
    · rw [if_neg hab]
      exact List.Perm.trans (List.Perm.cons b ih) (List.Perm.swap a b bs)

theorem sortIds_perm (l : List Nat) : (sortIds l).Perm l := by
  induction l with
  | nil => exact List.Perm.refl _
  | cons a as ih =>
    exact List.Perm.trans (insertLe_perm a (sortIds as)) (List.Perm.cons a ih)

theorem mem_sortIds {i : Nat} {l : List Nat} : i ∈ sortIds l ↔ i ∈ l :=
  (sortIds_perm l).mem_iff

theorem sorted_insertLe (a : Nat) {l : List Nat}
    (h : List.Sorted (· ≤ ·) l) : List.Sorted (· ≤ ·) (insertLe a l) := by
  induction l with
  | nil => simp [insertLe]
  | cons b bs ih =>
    unfold insertLe
    by_cases hab : a ≤ b
    · rw [if_pos hab]
      refine List.Pairwise.cons ?_ h
      intro x hx
      rcases List.mem_cons.mp hx with hx | hx
      · omega
      · have := List.rel_of_sorted_cons h x hx
        omega
    · rw [if_neg hab]
      have hbs : List.Sorted (· ≤ ·) bs := List.Sorted.of_cons h
      refine List.Pairwise.cons ?_ (ih hbs)
      intro x hx
      have hx2 := (insertLe_perm a bs).mem_iff.mp hx
      rcases List.mem_cons.mp hx2 with hx2 | hx2
      · omega
      · exact List.rel_of_sorted_cons h x hx2

theorem sorted_sortIds (l : List Nat) : List.Sorted (· ≤ ·) (sortIds l) := by
  induction l with
  | nil => simp [sortIds]
  | cons a as ih => exact sorted_insertLe a ih

theorem insertByID_perm (a : Obj) (l : List Obj) :
    (insertByID a l).Perm (a :: l) := by
  induction l with
  | nil => exact List.Perm.refl _
  | cons b bs ih =>
    unfold insertByID
    by_cases hab : a.id ≤ b.id
    · rw [if_pos hab]
    · rw [if_neg hab]
      exact List.Perm.trans (List.Perm.cons b ih) (List.Perm.swap a b bs)

theorem sortObjs_perm (l : List Obj) : (sortObjs l).Perm l := by
  induction l with
  | nil => exact List.Perm.refl _
  | cons a as ih =>
    exact List.Perm.trans (insertByID_perm a (sortObjs as)) (List.Perm.cons a ih)

/-! ### The object lookup -/

/-- Every entry of `lkInsert m k o` is an old entry or the new binding. -/
theorem mem_lkInsert {m : List (Nat × Obj)} {k : Nat} {o : Obj} {q : Nat × Obj}
    (h : q ∈ lkInsert m k o) : q ∈ m ∨ q = (k, o) := by
  unfold lkInsert at h
  by_cases hk : m.any (fun p => p.1 = k)
  · rw [if_pos hk] at h
    obtain ⟨p, hp, hq⟩ := List.mem_map.mp h
    by_cases hpk : p.1 = k
    · right; rw [← hq]; simp [hpk]
    · left; rw [← hq]; simpa [hpk] using hp
  · rw [if_neg hk] at h
    rcases List.mem_append.mp h with h | h
    · exact Or.inl h
    · right; simpa using h

/-- The new binding is always present after `lkInsert`. -/
theorem mem_lkInsert_self (m : List (Nat × Obj)) (k : Nat) (o : Obj) :
    (k, o) ∈ lkInsert m k o := by
  unfold lkInsert
  by_cases hk : m.any (fun p => p.1 = k)
  · rw [if_pos hk]
    obtain ⟨p, hp, hpk⟩ := List.any_eq_true.mp hk
    refine List.mem_map.mpr ⟨p, hp, ?_⟩
    simp at hpk
    simp [hpk]
  · rw [if_neg hk]
    simp

/-- Other keys' bindings survive `lkInsert`. -/
theorem mem_lkInsert_of_ne {m : List (Nat × Obj)} {i : Nat} {o : Obj}
    (h : (i, o) ∈ m) {k : Nat} (hk : k ≠ i) (w : Obj) :
    (i, o) ∈ lkInsert m k w := by
  unfold lkInsert
  by_cases ha : m.any (fun p => p.1 = k)
  · rw [if_pos ha]
    refine List.mem_map.mpr ⟨(i, o), h, ?_⟩
    have hik : ¬((i, o).1 = k) := by simp; omega
    rw [if_neg hik]
  · rw [if_neg ha]
    exact List.mem_append.mpr (Or.inl h)

theorem lkInsert_keys_of_present {m : List (Nat × Obj)} {k : Nat} (o : Obj)
    (h : m.any (fun p => p.1 = k)) :
    (lkInsert m k o).map Prod.fst = m.map Prod.fst := by
  unfold lkInsert
  rw [if_pos h, List.map_map]
  refine List.map_congr_left ?_
  intro p _
  by_cases hpk : p.1 = k <;> simp [hpk]

theorem lkInsert_keys_of_absent {m : List (Nat × Obj)} {k : Nat} (o : Obj)
    (h : ¬m.any (fun p => p.1 = k)) :
    (lkInsert m k o).map Prod.fst = m.map Prod.fst ++ [k] := by
  unfold lkInsert
  rw [if_neg h, List.map_append]
  rfl

/-- `lkInsert` preserves distinctness of the keys. -/
theorem lkInsert_nodupKeys {m : List (Nat × Obj)} {k : Nat} {o : Obj}
    (h : (m.map Prod.fst).Nodup) : ((lkInsert m k o).map Prod.fst).Nodup := by
  by_cases ha : m.any (fun p => p.1 = k)
  · rwa [lkInsert_keys_of_present o ha]
  · rw [lkInsert_keys_of_absent o ha]
    have hk : k ∉ m.map Prod.fst := by
      intro hmem
      obtain ⟨p, hp, hpk⟩ := List.mem_map.mp hmem
      exact ha (List.any_eq_true.mpr ⟨p, hp, by simp [hpk]⟩)
    rw [List.nodup_append_comm, List.singleton_append]
    exact List.nodup_cons.mpr ⟨hk, h⟩

theorem mem_of_lkFind {m : List (Nat × Obj)} {k : Nat} {o : Obj}
    (h : lkFind m k = some o) : (k, o) ∈ m := by
  unfold lkFind at h
  cases hf : m.find? (fun p => p.1 = k) with
  | none => rw [hf] at h; exact absurd h (by simp)
  | some p =>
    rw [hf] at h
    have hmem := List.mem_of_find?_eq_some hf
    have hkey : p.1 = k := by simpa using List.find?_some hf
    have : p = (k, o) := by
      cases p
      simp at h hkey ⊢
      exact ⟨hkey, by simpa using h⟩
    exact this ▸ hmem

theorem lkFind_eq_some_of_mem {m : List (Nat × Obj)} {k : Nat} {o : Obj}
    (hnd : (m.map Prod.fst).Nodup) (h : (k, o) ∈ m) : lkFind m k = some o := by
  induction m with
  | nil => simp at h
  | cons q rest ih =>
    rw [List.map_cons] at hnd
    rcases List.mem_cons.mp h with hq | hq
    · have hq2 : q = (k, o) := hq.symm
      subst hq2
      unfold lkFind
      rw [List.find?_cons_of_pos _ (by simp)]
    · have hqk : ¬(q.1 = k) := by
        intro hqk
        have hkm : k ∈ rest.map Prod.fst := List.mem_map.mpr ⟨(k, o), hq, rfl⟩
        exact (List.nodup_cons.mp hnd).1 (hqk ▸ hkm)
      have hstep : lkFind (q :: rest) k = lkFind rest k := by
        unfold lkFind
        rw [List.find?_cons_of_neg _ (by simpa using hqk)]
      rw [hstep]
      exact ih (List.nodup_cons.mp hnd).2 hq

theorem lkFind_isSome_of_mem_keys {m : List (Nat × Obj)} {k : Nat}
    (h : k ∈ m.map Prod.fst) : (lkFind m k).isSome := by
  obtain ⟨p, hp, hpk⟩ := List.mem_map.mp h
  unfold lkFind
  cases hf : m.find? (fun q => q.1 = k) with
  | none =>
    exfalso
    have := List.find?_eq_none.mp hf p hp
    simp [hpk] at this
  | some q => rfl

/-! ### Folding insertions into the lookup -/

/-- Entries of a folded sequence of insertions come from the initial
lookup or from the inserted pairs. -/
theorem mem_foldl_lkInsert_src {ps : List (Nat × Obj)} :
    ∀ {m : List (Nat × Obj)} {q : Nat × Obj},
      q ∈ ps.foldl (fun m p => lkInsert m p.1 p.2) m → q ∈ m ∨ q ∈ ps := by
  induction ps with
  | nil => intro m q h; exact Or.inl h
  | cons p rest ih =>
    intro m q h
    rcases ih h with h2 | h2
    · rcases mem_lkInsert h2 with h3 | h3
      · exact Or.inl h3
      · right
        rw [h3]
        exact List.mem_cons_self _ _
    · exact Or.inr (List.mem_cons_of_mem p h2)

theorem foldl_lkInsert_nodupKeys {ps : List (Nat × Obj)} :
    ∀ {m : List (Nat × Obj)}, (m.map Prod.fst).Nodup →
      (((ps.foldl (fun m p => lkInsert m p.1 p.2) m).map Prod.fst)).Nodup := by
  induction ps with
  | nil => intro m h; exact h
  | cons p rest ih => intro m h; exact ih (lkInsert_nodupKeys h)

/-- A binding whose key is never reused with a different value survives a
fold of insertions, whether it started in the lookup or is inserted. -/
theorem mem_foldl_lkInsert_of_uniform {k : Nat} {o : Obj} :
    ∀ {ps : List (Nat × Obj)} {m : List (Nat × Obj)},
      (∀ q ∈ ps, q.1 = k → q.2 = o) → ((k, o) ∈ m ∨ (k, o) ∈ ps) →
      (k, o) ∈ ps.foldl (fun m p => lkInsert m p.1 p.2) m := by
  intro ps
  induction ps with
  | nil =>
    intro m _ hm
    rcases hm with hm | hm
    · exact hm
    · simp at hm
  | cons p rest ih =>
    intro m huni hm
    have hrest : ∀ q ∈ rest, q.1 = k → q.2 = o := fun q hq =>
      huni q (List.mem_cons_of_mem p hq)
    by_cases hpk : p.1 = k
    · have hpo : p.2 = o := huni p (List.mem_cons_self _ _) hpk
      have hp2 : p = (k, o) := by
        cases p
        simp at hpk hpo
        simp [hpk, hpo]
      refine ih hrest (Or.inl ?_)
      rw [hp2]
      exact mem_lkInsert_self m k o
    · rcases hm with hm | hm
      · exact ih hrest (Or.inl (mem_lkInsert_of_ne hm (fun h => hpk h) p.2))
      · rcases List.mem_cons.mp hm with hm | hm
        · exact absurd (congrArg Prod.fst hm.symm) hpk
        · exact ih hrest (Or.inr hm)

/-! ### `jsObjectValues` -/

/-- Reading off the sorted keys through `lkFind` reproduces the keys. -/
theorem map_id_filterMap_lkFind (m : List (Nat × Obj)) :
    ∀ (ks : List Nat), (∀ k ∈ ks, ∀ o, lkFind m k = some o → o.id = k) →
      (∀ k ∈ ks, (lkFind m k).isSome) →
      (ks.filterMap (lkFind m)).map Obj.id = ks := by
  intro ks
  induction ks with
  | nil => intro _ _; rfl
  | cons k rest ih =>
    intro hid hsome
    cases hf : lkFind m k with
    | none =>
      exact absurd (hsome k (List.mem_cons_self _ _)) (by simp [hf])
    | some o =>
      rw [List.filterMap_cons, hf, List.map_cons,
        hid k (List.mem_cons_self _ _) o hf,
        ih (fun k2 hk2 => hid k2 (List.mem_cons_of_mem k hk2))
          (fun k2 hk2 => hsome k2 (List.mem_cons_of_mem k hk2))]

/-- With distinct keys and id-consistent bindings, the merged values list
enumerates exactly the sorted keys. -/
theorem jsObjectValues_map_id {m : List (Nat × Obj)}
    (hinv : ∀ p ∈ m, p.2.id = p.1) :
    (jsObjectValues m).map Obj.id = sortIds (m.map Prod.fst) := by
  unfold jsObjectValues
  refine map_id_filterMap_lkFind m _ ?_ ?_
  · intro k _ o hf
    exact hinv (k, o) (mem_of_lkFind hf)
  · intro k hk
    exact lkFind_isSome_of_mem_keys (mem_sortIds.mp hk)

/-- With distinct keys and id-consistent bindings, the merged values are
sorted ascending by id. -/
theorem jsObjectValues_sorted {m : List (Nat × Obj)}
    (hinv : ∀ p ∈ m, p.2.id = p.1) :
    List.Sorted (· ≤ ·) ((jsObjectValues m).map Obj.id) := by
  rw [jsObjectValues_map_id hinv]
  exact sorted_sortIds _

/-- Every binding of a distinct-key lookup appears among the merged
values. -/
theorem mem_jsObjectValues {m : List (Nat × Obj)} {k : Nat} {o : Obj}
    (hnd : (m.map Prod.fst).Nodup) (h : (k, o) ∈ m) :
    o ∈ jsObjectValues m := by
  unfold jsObjectValues
  refine List.mem_filterMap.mpr ⟨k, ?_, lkFind_eq_some_of_mem hnd h⟩
  exact mem_sortIds.mpr (List.mem_map.mpr ⟨(k, o), h, rfl⟩)

/-! ### The probe partition -/

theorem mem_missingIds {cache : String → Option Obj} {ck : String}
    {l : List Nat} {i : Nat} :
    i ∈ missingIds cache ck l ↔ i ∈ l ∧ cache (perIdKey ck i) = none := by
  unfold missingIds
  rw [List.mem_filter, mem_sortIds]
  simp [Option.isNone_iff_eq_none]

theorem missingIds_isEmpty_iff {cache : String → Option Obj} {ck : String}
    {l : List Nat} :
    missingIds cache ck l = [] ↔ ∀ i ∈ l, (cache (perIdKey ck i)).isSome := by
  constructor
  · intro h i hi
    cases hc : cache (perIdKey ck i) with
    | none =>
      exfalso
      have : i ∈ missingIds cache ck l := mem_missingIds.mpr ⟨hi, hc⟩
      rw [h] at this
      simp at this
    | some _ => rfl
  · intro h
    rcases hm : missingIds cache ck l with _ | ⟨i, rest⟩
    · rfl
    · exfalso
      have hi : i ∈ missingIds cache ck l := by
        rw [hm]; exact List.mem_cons_self _ _
      obtain ⟨hil, hnone⟩ := mem_missingIds.mp hi
      have := h i hil
      rw [hnone] at this
      simp at this

theorem mem_cachedPairs {cache : String → Option Obj} {ck : String}
    {l : List Nat} {q : Nat × Obj} :
    q ∈ cachedPairs cache ck l
      ↔ q.1 ∈ l ∧ cache (perIdKey ck q.1) = some q.2 := by
  unfold cachedPairs
  rw [List.mem_filterMap]
  constructor
  · rintro ⟨i, hi, hq⟩
    cases hc : cache (perIdKey ck i) with
    | none => rw [hc] at hq; simp at hq
    | some o =>
      rw [hc] at hq
      simp at hq
      rw [← hq]
      exact ⟨mem_sortIds.mp hi, hc⟩
  · rintro ⟨hq1, hq2⟩
    exact ⟨q.1, mem_sortIds.mpr hq1, by rw [hq2]; simp⟩

theorem lkOfCached_eq_foldl (cache : String → Option Obj) (ck : String)
    (l : List Nat) :
    lkOfCached cache ck l
      = (cachedPairs cache ck l).foldl (fun m p => lkInsert m p.1 p.2) [] := rfl

theorem lkOfCached_nodupKeys (cache : String → Option Obj) (ck : String)
    (l : List Nat) : ((lkOfCached cache ck l).map Prod.fst).Nodup := by
  rw [lkOfCached_eq_foldl]
  exact foldl_lkInsert_nodupKeys (by simp)

theorem mem_lkOfCached_src {cache : String → Option Obj} {ck : String}
    {l : List Nat} {q : Nat × Obj} (h : q ∈ lkOfCached cache ck l) :
    q.1 ∈ l ∧ cache (perIdKey ck q.1) = some q.2 := by
  rw [lkOfCached_eq_foldl] at h
  rcases mem_foldl_lkInsert_src h with h | h
  · simp at h
  · exact mem_cachedPairs.mp h

theorem mem_lkOfCached_of_cached {cache : String → Option Obj} {ck : String}
    {l : List Nat} {i : Nat} {o : Obj} (hil : i ∈ l)
    (hc : cache (perIdKey ck i) = some o) : (i, o) ∈ lkOfCached cache ck l := by
  rw [lkOfCached_eq_foldl]
  refine mem_foldl_lkInsert_of_uniform ?_ (Or.inr ?_)
  · intro q hq hqk
    obtain ⟨-, hq2⟩ := mem_cachedPairs.mp hq
    rw [hqk] at hq2
    rw [hq2] at hc
    exact (Option.some.injEq _ _).mp hc
  · exact mem_cachedPairs.mpr ⟨hil, hc⟩

theorem lkOfCached_inv {cache : String → Option Obj} {ck : String}
    {l : List Nat}
    (hcons : ∀ i o, cache (perIdKey ck i) = some o → o.id = i) :
    ∀ p ∈ lkOfCached cache ck l, p.2.id = p.1 := by
  intro p hp
  exact hcons p.1 p.2 (mem_lkOfCached_src hp).2

theorem lkOfCached_isEmpty_iff {cache : String → Option Obj} {ck : String}
    {l : List Nat} :
    lkOfCached cache ck l = [] ↔ ∀ i ∈ l, cache (perIdKey ck i) = none := by
  constructor
  · intro h i hi
    cases hc : cache (perIdKey ck i) with
    | none => rfl
    | some o =>
      exfalso
      have := mem_lkOfCached_of_cached hi hc
      rw [h] at this
      simp at this
  · intro h
    rw [lkOfCached_eq_foldl]
    have hcp : cachedPairs cache ck l = [] := by
      rcases hm : cachedPairs cache ck l with _ | ⟨q, rest⟩
      · rfl
      · exfalso
        have hq : q ∈ cachedPairs cache ck l := by
          rw [hm]; exact List.mem_cons_self _ _
        obtain ⟨h1, h2⟩ := mem_cachedPairs.mp hq
        rw [h q.1 h1] at h2
        simp at h2
    rw [hcp]
    rfl

theorem filterMap_id_map {α β : Type} (f : α → Option β) (l : List α) :
    (l.map f).filterMap (fun x => x) = l.filterMap f := by
  induction l with
  | nil => rfl
  | cons a as ih =>
    rw [List.map_cons, List.filterMap_cons, List.filterMap_cons]
    cases f a <;> simp [ih]

theorem length_filterMap_of_all_isSome {α β : Type} {f : α → Option β}
    {l : List α} (h : ∀ i ∈ l, (f i).isSome) :
    (l.filterMap f).length = l.length := by
  induction l with
  | nil => rfl
  | cons a as ih =>
    cases hf : f a with
    | none => exact absurd (h a (List.mem_cons_self _ _)) (by simp [hf])
    | some b =>
      rw [List.filterMap_cons, hf, List.length_cons,
        ih (fun i hi => h i (List.mem_cons_of_mem a hi))]
      rfl

theorem map_id_filterMap_probe {cache : String → Option Obj} {ck : String}
    (hcons : ∀ i o, cache (perIdKey ck i) = some o → o.id = i) (sl : List Nat) :
    ((sl.filterMap (fun i => cache (perIdKey ck i))).map Obj.id)
      = sl.filter (fun i => (cache (perIdKey ck i)).isSome) := by
  induction sl with
  | nil => rfl
  | cons a as ih =>
    rw [List.filterMap_cons, List.filter_cons]
    cases hf : cache (perIdKey ck a) with
    | none => simpa using ih
    | some o =>
      rw [List.map_cons, hcons a o hf]
      simpa using ih

theorem isEmpty_false_of_ne_nil {α : Type} {l : List α} (h : l ≠ []) :
    l.isEmpty = false := by
  cases l with
  | nil => exact absurd rfl h
  | cons a as => rfl

theorem detail_arr_allCached (cfg : Config) (path : String) (l : List Nat)
    (params0 : Params) (apiKey : Option String) (cache : String → Option Obj)
    (decodeD : String → Option DetailData) (resp : Response)
    (hmiss : missingIds cache (requestCK cfg path params0 apiKey) l = []) :
    apiDetailsRequest cfg path (.arr l) params0 apiKey cache decodeD resp
      = { result := .resolvedV (.objs ((sortIds l).filterMap
            (fun i => cache (perIdKey (requestCK cfg path params0 apiKey) i))))
          probes := (sortIds l).map (perIdKey (requestCK cfg path params0 apiKey))
          calls := []
          writes := [] } := by
  simp only [apiDetailsRequest]
  rw [hmiss]
  simp only [List.isEmpty_nil, if_true, filterMap_id_map]

theorem detail_arr_fetchOk (cfg : Config) (path : String) (l : List Nat)
    (params0 : Params) (apiKey : Option String) (cache : String → Option Obj)
    (decodeD : String → Option DetailData) (resp : Response)
    (fetched : List Obj)
    (hmiss : missingIds cache (requestCK cfg path params0 apiKey) l ≠ [])
    (hok : requestDetail decodeD resp = .ok (.arr fetched)) :
    apiDetailsRequest cfg path (.arr l) params0 apiKey cache decodeD resp
      = { result := .resolvedV (.objs (jsObjectValues
            (mergeLookup cache (requestCK cfg path params0 apiKey) l fetched)))
          probes := (sortIds l).map (perIdKey (requestCK cfg path params0 apiKey))
          calls := [[("ids", .str (joinIds
            (missingIds cache (requestCK cfg path params0 apiKey) l)))]]
          writes := (sortObjs fetched).map (fun o =>
            (perIdKey (requestCK cfg path params0 apiKey) o.id, o)) } := by
  simp only [apiDetailsRequest]
  rw [isEmpty_false_of_ne_nil hmiss]
  simp only [Bool.false_eq_true, if_false, detailFetch]
  rw [hok]
  rfl

theorem detail_arr_fetchErr (cfg : Config) (path : String) (l : List Nat)
    (params0 : Params) (apiKey : Option String) (cache : String → Option Obj)
    (decodeD : String → Option DetailData) (resp : Response) (e : JsError)
    (hmiss : missingIds cache (requestCK cfg path params0 apiKey) l ≠ [])
    (herr : requestDetail decodeD resp = .error e) :
    apiDetailsRequest cfg path (.arr l) params0 apiKey cache decodeD resp
      = { result := if (lkOfCached cache (requestCK cfg path params0 apiKey) l).isEmpty
            then .resolvedV (.err e)
            else .resolvedV (.objs (jsObjectValues
              (lkOfCached cache (requestCK cfg path params0 apiKey) l)))
          probes := (sortIds l).map (perIdKey (requestCK cfg path params0 apiKey))
          calls := [[("ids", .str (joinIds
            (missingIds cache (requestCK cfg path params0 apiKey) l)))]]
          writes := [] } := by
  simp only [apiDetailsRequest]
  rw [isEmpty_false_of_ne_nil hmiss]
  simp only [Bool.false_eq_true, if_false, detailFetch]
  rw [herr]
  simp only []
  by_cases hlk : (lkOfCached cache (requestCK cfg path params0 apiKey) l).isEmpty
  · simp [hlk, idListToParams]
  · simp [hlk, idListToParams]

/-- The merged lookup has distinct keys. -/
theorem mergeLookup_nodupKeys (cache : String → Option Obj) (ck : String)
    (l : List Nat) (fetched : List Obj) :
    ((mergeLookup cache ck l fetched).map Prod.fst).Nodup := by
  unfold mergeLookup
  rw [show (sortObjs fetched).foldl (fun m o => lkInsert m o.id o)
        (lkOfCached cache ck l)
      = ((sortObjs fetched).map (fun o => (o.id, o))).foldl
          (fun m p => lkInsert m p.1 p.2) (lkOfCached cache ck l) by
    rw [List.foldl_map]]
  exact foldl_lkInsert_nodupKeys (lkOfCached_nodupKeys cache ck l)

/-- The merged lookup is id-consistent when the cache is. -/
theorem mergeLookup_inv {cache : String → Option Obj} {ck : String}
    {l : List Nat} {fetched : List Obj}
    (hcons : ∀ i o, cache (perIdKey ck i) = some o → o.id = i) :
    ∀ p ∈ mergeLookup cache ck l fetched, p.2.id = p.1 := by
  intro p hp
  unfold mergeLookup at hp
  rw [show (sortObjs fetched).foldl (fun m o => lkInsert m o.id o)
        (lkOfCached cache ck l)
      = ((sortObjs fetched).map (fun o => (o.id, o))).foldl
          (fun m p => lkInsert m p.1 p.2) (lkOfCached cache ck l) by
    rw [List.foldl_map]] at hp
  rcases mem_foldl_lkInsert_src hp with hp | hp
  · exact lkOfCached_inv hcons p hp
  · obtain ⟨o, -, ho⟩ := List.mem_map.mp hp
    rw [← ho]

/-- Cached bindings survive the merge when every fetched object's id is a
missing id. -/
theorem mem_mergeLookup_of_cached {cache : String → Option Obj} {ck : String}
    {l : List Nat} {fetched : List Obj} {i : Nat} {o : Obj} (hil : i ∈ l)
    (hc : cache (perIdKey ck i) = some o)
    (hfids : ∀ o2 ∈ fetched, o2.id ∈ missingIds cache ck l) :
    (i, o) ∈ mergeLookup cache ck l fetched := by
  unfold mergeLookup
  rw [show (sortObjs fetched).foldl (fun m o => lkInsert m o.id o)
        (lkOfCached cache ck l)
      = ((sortObjs fetched).map (fun o => (o.id, o))).foldl
          (fun m p => lkInsert m p.1 p.2) (lkOfCached cache ck l) by
    rw [List.foldl_map]]
  refine mem_foldl_lkInsert_of_uniform ?_
    (Or.inl (mem_lkOfCached_of_cached hil hc))
  intro q hq hqk
  exfalso
  obtain ⟨o2, ho2, hq2⟩ := List.mem_map.mp hq
  have ho2f : o2 ∈ fetched := (sortObjs_perm fetched).mem_iff.mp ho2
  have := (mem_missingIds.mp (hfids o2 ho2f)).2
  rw [← hq2] at hqk
  simp at hqk
  rw [hqk] at this
  rw [this] at hc
  exact Option.noConfusion hc

/-- Fetched objects appear in the merge when their ids are distinct. -/
theorem mem_mergeLookup_of_fetched {cache : String → Option Obj} {ck : String}
    {l : List Nat} {fetched : List Obj} {o : Obj} (ho : o ∈ fetched)
    (hfnd : (fetched.map Obj.id).Nodup) :
    (o.id, o) ∈ mergeLookup cache ck l fetched := by
  unfold mergeLookup
  rw [show (sortObjs fetched).foldl (fun m o => lkInsert m o.id o)
        (lkOfCached cache ck l)
      = ((sortObjs fetched).map (fun o => (o.id, o))).foldl
          (fun m p => lkInsert m p.1 p.2) (lkOfCached cache ck l) by
    rw [List.foldl_map]]
  have hnds : ((sortObjs fetched).map Obj.id).Nodup :=
    (((sortObjs_perm fetched).map Obj.id).nodup_iff).mpr hfnd
  refine mem_foldl_lkInsert_of_uniform ?_
    (Or.inr (List.mem_map.mpr ⟨o, (sortObjs_perm fetched).mem_iff.mpr ho, rfl⟩))
  intro q hq hqk
  obtain ⟨o2, ho2, hq2⟩ := List.mem_map.mp hq
  rw [← hq2] at hqk ⊢
  simp at hqk ⊢
  have hos : o ∈ sortObjs fetched := (sortObjs_perm fetched).mem_iff.mpr ho
  exact List.inj_on_of_nodup_map hnds ho2 hos hqk

/-! ## Auxiliary facts used when instantiating the theorems -/

theorem data_append (a b : String) : (a ++ b).data = a.data ++ b.data := rfl

theorem string_eq_of_data {a b : String} (h : a.data = b.data) : a = b := by
  cases a; cases b; exact congrArg String.mk h

theorem perIdKey_data (ck : String) (i : Nat) :
    (perIdKey ck i).data = ck.data ++ '#' :: natDigits i := by
  unfold perIdKey
  rw [data_append, data_append]
  rw [show ("#" : String).data = ['#'] from rfl, List.append_assoc]
  rfl

theorem perIdKey_inj {ck : String} {i j : Nat}
    (h : perIdKey ck i = perIdKey ck j) : i = j := by
  have hd := congrArg String.data h
  rw [perIdKey_data, perIdKey_data] at hd
  have h2 := List.append_cancel_left hd
  injection h2 with h3 h4
  exact natDigits_injective h4

theorem svalLenLeZero_false_of_truthy {v : SVal} (h : truthySVal v = true) :
    svalLenLeZero v = false := by
  cases v with
  | num n => rfl
  | boolean b => rfl
  | str s =>
    simp only [truthySVal, ne_eq, decide_eq_true_eq] at h
    simp only [svalLenLeZero, decide_eq_false_iff_not]
    intro hlen
    apply h
    cases s with
    | mk data =>
      cases data with
      | nil => rfl
      | cons c cs => simp [String.length] at hlen

/-! ### Unfolding the collection orchestrator -/

theorem requestC_bad (decode : String → Option JVal) (resp : Response)
    (hbad : ¬(resp.statusCode = 200 ∨ resp.statusCode = 206)) :
    requestC decode resp = .error (.upstream resp.statusCode resp.body) := by
  unfold requestC
  rw [if_neg hbad]

theorem apiRequest_hit (cfg : Config) (path : String) (params0 : Params)
    (apiKey : Option String) (cache : String → Option JVal)
    (decode : String → Option JVal) (resp : Response) (v : JVal)
    (hv : cache (requestCK cfg path params0 apiKey) = some v)
    (ht : truthyJ v = true) :
    apiRequest cfg path params0 apiKey cache decode resp
      = { result := .resolvedV (.dataV v)
          probes := [requestCK cfg path params0 apiKey]
          calls := []
          writes := [] } := by
  simp only [apiRequest]
  rw [hv]
  simp [ht]

theorem apiRequest_miss (cfg : Config) (path : String) (params0 : Params)
    (apiKey : Option String) (cache : String → Option JVal)
    (decode : String → Option JVal) (resp : Response)
    (hmiss : truthyOpt (cache (requestCK cfg path params0 apiKey)) = false) :
    apiRequest cfg path params0 apiKey cache decode resp
      = collMiss (langNormalize cfg params0) (requestCK cfg path params0 apiKey)
          decode resp := by
  simp only [apiRequest]
  cases hc : cache (requestCK cfg path params0 apiKey) with
  | none => rfl
  | some v =>
    rw [hc] at hmiss
    simp only [truthyOpt] at hmiss
    simp [hmiss]

theorem collMiss_ok (params : Params) (ck : String)
    (decode : String → Option JVal) (resp : Response) (env : Envelope)
    (hok : requestC decode resp = .ok env) :
    collMiss params ck decode resp
      = { result := .resolvedV (.dataV env.data), probes := [ck],
          calls := [params], writes := [(ck, env.data)] } := by
  unfold collMiss
  rw [hok]

theorem collMiss_err (params : Params) (ck : String)
    (decode : String → Option JVal) (resp : Response) (e : JsError)
    (he : requestC decode resp = .error e) :
    collMiss params ck decode resp
      = { result := .resolvedV (.errV e), probes := [ck],
          calls := [params], writes := [] } := by
  unfold collMiss
  rw [he]

theorem cacheBoth_cons :
    ∀ i o, cacheBoth (perIdKey ckEx i) = some o → o.id = i := by
  intro i o h
  unfold cacheBoth at h
  by_cases h15 : perIdKey ckEx i = perIdKey ckEx 15
  · rw [if_pos h15] at h
    injection h with h
    rw [← h, perIdKey_inj h15]; rfl
  · rw [if_neg h15] at h
    by_cases h20 : perIdKey ckEx i = perIdKey ckEx 2016
    · rw [if_pos h20] at h
      injection h with h
      rw [← h, perIdKey_inj h20]; rfl
    · rw [if_neg h20] at h
      exact absurd h (by simp)

theorem cache15only_cons :
    ∀ i o, cache15only (perIdKey ckEx i) = some o → o.id = i := by
  intro i o h
  unfold cache15only at h
  by_cases h15 : perIdKey ckEx i = perIdKey ckEx 15
  · rw [if_pos h15] at h
    injection h with h
    rw [← h, perIdKey_inj h15]; rfl
  · rw [if_neg h15] at h
    exact absurd h (by simp)

/-! ## The claims -/

/-- Claim C10: a detail fetch called with an empty array of ids resolves
normally to an empty array, issues no transport request, probes no cache
key, and performs no cache write — for every configuration, path, extra
parameters, API key, cache state, decoder and pending response. -/
theorem C10_empty_ids_resolves_empty (cfg : Config) (path : String)
    (params0 : Params) (apiKey : Option String) (cache : String → Option Obj)
    (decodeD : String → Option DetailData) (resp : Response) :
    apiDetailsRequest cfg path (.arr []) params0 apiKey cache decodeD resp
      = { result := .resolvedV (.objs []), probes := [], calls := [],
          writes := [] } := rfl

/-- Claim C5: a collection fetch whose transport response has HTTP status
206 is treated as a success exactly like status 200: with a cache miss and
a decodable body, the decoded value is stored under the cache key, the
decoded value is returned, and the whole observable outcome equals that of
the same response with status 200. -/
theorem C5_status206_success (cfg : Config) (path : String) (params0 : Params)
    (apiKey : Option String) (cache : String → Option JVal)
    (decode : String → Option JVal) (resp : Response) (v : JVal)
    (h206 : resp.statusCode = 206)
    (hmiss : truthyOpt (cache (requestCK cfg path params0 apiKey)) = false)
    (hdec : decode resp.body = some v) :
    (apiRequest cfg path params0 apiKey cache decode resp).result
        = .resolvedV (.dataV v)
    ∧ (apiRequest cfg path params0 apiKey cache decode resp).writes
        = [(requestCK cfg path params0 apiKey, v)]
    ∧ apiRequest cfg path params0 apiKey cache decode resp
        = apiRequest cfg path params0 apiKey cache decode
            { statusCode := 200, headers := resp.headers, body := resp.body } := by
  have hok : requestC decode resp
      = .ok { meta := { pageSize := resp.headers.pageSize
                        pageTotal := resp.headers.pageTotal
                        resultCount := resp.headers.resultCount
                        resultTotal := resp.headers.resultTotal
                        httpStatus := resp.statusCode }
              data := v } := by
    unfold requestC
    rw [if_pos (Or.inr h206), hdec]
  have hok200 : requestC decode
      { statusCode := 200, headers := resp.headers, body := resp.body }
      = .ok { meta := { pageSize := resp.headers.pageSize
                        pageTotal := resp.headers.pageTotal
                        resultCount := resp.headers.resultCount
                        resultTotal := resp.headers.resultTotal
                        httpStatus := 200 }
              data := v } := by
    unfold requestC
    rw [if_pos (Or.inl rfl)]
    simp only at hdec ⊢
    rw [hdec]
  rw [apiRequest_miss cfg path params0 apiKey cache decode resp hmiss,
    apiRequest_miss cfg path params0 apiKey cache decode _ hmiss,
    collMiss_ok _ _ _ _ _ hok, collMiss_ok _ _ _ _ _ hok200]
  exact ⟨rfl, rfl, rfl⟩

/-- Claim C5 witness: a concrete 206 response on a cache miss is decoded,
cached and returned just as with status 200. -/
theorem C5_witness :
    (apiRequest cfgEx "items" [] none cacheCollEmpty decodeCollNum resp206).result
        = .resolvedV (.dataV (.num 7))
    ∧ (apiRequest cfgEx "items" [] none cacheCollEmpty decodeCollNum resp206).writes
        = [(requestCK cfgEx "items" [] none, .num 7)]
    ∧ apiRequest cfgEx "items" [] none cacheCollEmpty decodeCollNum resp206
        = apiRequest cfgEx "items" [] none cacheCollEmpty decodeCollNum
            { statusCode := 200, headers := resp206.headers, body := resp206.body } :=
  C5_status206_success cfgEx "items" [] none cacheCollEmpty decodeCollNum
    resp206 (.num 7) rfl rfl rfl

/-- Claim C4 counterexample: on a cache miss with upstream status 500 the
collection fetch does not fail — its promise resolves normally, with the
error object (carrying status 500 and the raw body) as the resolved
value. -/
theorem C4_counterexample :
    (apiRequest cfgEx "items" [] none cacheCollEmpty decodeCollNum respFail).result
      = .resolvedV (.errV (.upstream 500 "oops")) := rfl

/-- Claim C4 amended: on a cache miss with an HTTP status other than 200
or 206, the collection fetch performs no cache write and resolves normally
with an error value carrying the status code and raw body (the rejection
handler returns the failure instead of rethrowing, so the caller observes
a normal resolution, not a failure). -/
theorem C4_upstream_error_swallowed (cfg : Config) (path : String)
    (params0 : Params) (apiKey : Option String) (cache : String → Option JVal)
    (decode : String → Option JVal) (resp : Response)
    (hmiss : truthyOpt (cache (requestCK cfg path params0 apiKey)) = false)
    (hbad : ¬(resp.statusCode = 200 ∨ resp.statusCode = 206)) :
    (apiRequest cfg path params0 apiKey cache decode resp).result
        = .resolvedV (.errV (.upstream resp.statusCode resp.body))
    ∧ (apiRequest cfg path params0 apiKey cache decode resp).writes = []
    ∧ (apiRequest cfg path params0 apiKey cache decode resp).calls
        = [langNormalize cfg params0] := by
  rw [apiRequest_miss cfg path params0 apiKey cache decode resp hmiss,
    collMiss_err _ _ _ _ _ (requestC_bad decode resp hbad)]
  exact ⟨rfl, rfl, rfl⟩

/-- Claim C4 witness: the amended behaviour at a concrete 500 response. -/
theorem C4_witness :
    (apiRequest cfgEx "items" [] none cacheCollEmpty decodeCollNum respFail).result
        = .resolvedV (.errV (.upstream 500 "oops"))
    ∧ (apiRequest cfgEx "items" [] none cacheCollEmpty decodeCollNum respFail).writes
        = [] :=
  ⟨(C4_upstream_error_swallowed cfgEx "items" [] none cacheCollEmpty
      decodeCollNum respFail rfl (by decide)).1,
   (C4_upstream_error_swallowed cfgEx "items" [] none cacheCollEmpty
      decodeCollNum respFail rfl (by decide)).2.1⟩

/-- Claim C6 counterexample: a cache key that is present but holds JSON
`null` is treated as a miss — the fetch issues a transport call even
though the key is present in the store. -/
theorem C6_counterexample :
    cacheCollNull (requestCK cfgEx "items" [("page", .num 1)] none) = some .null
    ∧ (apiRequest cfgEx "items" [("page", .num 1)] none cacheCollNull
        decodeCollNum respOK).calls.length = 1 := ⟨rfl, rfl⟩

/-- Claim C6 amended: a collection fetch whose cache key holds a truthy
value is a pure cache hit — here shown via the second of two identical
calls: the first call (a miss whose fetch succeeds with a truthy decoded
value) issues exactly one transport call and exactly one cache write and
returns the decoded data; the second call, on the cache left by the
first, issues zero transport calls and zero cache writes and returns the
same data. -/
theorem C6_idempotent_refetch (cfg : Config) (path : String) (params0 : Params)
    (apiKey : Option String) (cache : String → Option JVal)
    (decode : String → Option JVal) (resp : Response) (env : Envelope)
    (hmiss : truthyOpt (cache (requestCK cfg path params0 apiKey)) = false)
    (hok : requestC decode resp = .ok env)
    (ht : truthyJ env.data = true) :
    (apiRequest cfg path params0 apiKey cache decode resp).calls
        = [langNormalize cfg params0]
    ∧ (apiRequest cfg path params0 apiKey cache decode resp).writes
        = [(requestCK cfg path params0 apiKey, env.data)]
    ∧ (apiRequest cfg path params0 apiKey cache decode resp).result
        = .resolvedV (.dataV env.data)
    ∧ (apiRequest cfg path params0 apiKey
        (applyWrites cache [(requestCK cfg path params0 apiKey, env.data)])
        decode resp).calls = []
    ∧ (apiRequest cfg path params0 apiKey
        (applyWrites cache [(requestCK cfg path params0 apiKey, env.data)])
        decode resp).writes = []
    ∧ (apiRequest cfg path params0 apiKey
        (applyWrites cache [(requestCK cfg path params0 apiKey, env.data)])
        decode resp).result = .resolvedV (.dataV env.data) := by
  have h1 := apiRequest_miss cfg path params0 apiKey cache decode resp hmiss
  rw [collMiss_ok _ _ _ _ _ hok] at h1
  have hcache2 : applyWrites cache [(requestCK cfg path params0 apiKey, env.data)]
      (requestCK cfg path params0 apiKey) = some env.data := by
    unfold applyWrites
    simp
  have h2 := apiRequest_hit cfg path params0 apiKey
    (applyWrites cache [(requestCK cfg path params0 apiKey, env.data)])
    decode resp env.data hcache2 ht
  rw [h1, h2]
  exact ⟨rfl, rfl, rfl, rfl, rfl, rfl⟩

/-- Claim C6 witness: the amended behaviour at a concrete request. -/
theorem C6_witness :
    (apiRequest cfgEx "items" [] none cacheCollEmpty decodeCollNum respOK).calls
        = [[("lang", .str "en")]]
    ∧ (apiRequest cfgEx "items" [] none
        (applyWrites cacheCollEmpty [(requestCK cfgEx "items" [] none, .num 7)])
        decodeCollNum respOK).calls = []
    ∧ (apiRequest cfgEx "items" [] none
        (applyWrites cacheCollEmpty [(requestCK cfgEx "items" [] none, .num 7)])
        decodeCollNum respOK).result = .resolvedV (.dataV (.num 7)) := by
  have h := C6_idempotent_refetch cfgEx "items" [] none cacheCollEmpty
    decodeCollNum respOK
    { meta := { pageSize := none, pageTotal := none, resultCount := none,
                resultTotal := none, httpStatus := 200 }
      data := .num 7 }
    rfl rfl rfl
  exact ⟨h.1, h.2.2.2.1, h.2.2.2.2.2⟩

/-- Claim C1 counterexample: with ids 15 and 2016 both cached and the
caller requesting [2016, 15], the returned sequence is [id 15, id 2016]:
the element at position 0 has id 15, not the id 2016 the caller requested
at position 0 — the internal ascending sort leaks into the result order. -/
theorem C1_counterexample :
    (apiDetailsRequest cfgEx "items" (.arr [2016, 15]) [] none cacheBoth
        decodeNone respOK).result
      = .resolvedV (.objs [obj15, obj2016])
    ∧ obj15.id = 15 ∧ (15 : Nat) ≠ 2016 := by
  refine ⟨by decide, rfl, by decide⟩

/-- Claim C1 amended: a detail fetch over an array of ids returns the
resolved objects in ascending id order (the ascending sort used for
batching does leak into the result), both when everything is served from
cache and when the missing ids are fetched successfully as an array of
objects; the caller's requested order is honoured only when it was already
ascending. -/
theorem C1_result_ascending_by_id (cfg : Config) (path : String)
    (l : List Nat) (params0 : Params) (apiKey : Option String)
    (cache : String → Option Obj) (decodeD : String → Option DetailData)
    (resp : Response) (fetched : List Obj)
    (hcons : ∀ i o,
      cache (perIdKey (requestCK cfg path params0 apiKey) i) = some o → o.id = i)
    (hgood : missingIds cache (requestCK cfg path params0 apiKey) l = []
      ∨ requestDetail decodeD resp = .ok (.arr fetched)) :
    ∃ res,
      (apiDetailsRequest cfg path (.arr l) params0 apiKey cache decodeD
          resp).result = .resolvedV (.objs res)
      ∧ List.Sorted (· ≤ ·) (res.map Obj.id) := by
  by_cases hm : missingIds cache (requestCK cfg path params0 apiKey) l = []
  · refine ⟨_, by rw [detail_arr_allCached cfg path l params0 apiKey cache
      decodeD resp hm], ?_⟩
    rw [map_id_filterMap_probe hcons]
    exact List.Pairwise.sublist (List.filter_sublist _) (sorted_sortIds l)
  · rcases hgood with hgood | hok
    · exact absurd hgood hm
    · refine ⟨_, by rw [detail_arr_fetchOk cfg path l params0 apiKey cache
        decodeD resp fetched hm hok], ?_⟩
      exact jsObjectValues_sorted (mergeLookup_inv hcons)

/-- Claim C1 witness: the amended ordering at the counterexample's input. -/
theorem C1_witness :
    ∃ res,
      (apiDetailsRequest cfgEx "items" (.arr [2016, 15]) [] none cacheBoth
          decodeNone respOK).result = .resolvedV (.objs res)
      ∧ List.Sorted (· ≤ ·) (res.map Obj.id) :=
  C1_result_ascending_by_id cfgEx "items" [2016, 15] [] none cacheBoth
    decodeNone respOK [] cacheBoth_cons (Or.inl (by decide))

/-- Claim C2 counterexample: fetchDetails("items", [15, 15]) with an empty
cache and an upstream answer containing the id-15 object returns a
one-element sequence — the duplicate id is collapsed, not repeated. -/
theorem C2_counterexample :
    (apiDetailsRequest cfgEx "items" (.arr [15, 15]) [] none cacheNoObj
        decode15 respOK).result
      = .resolvedV (.objs [obj15])
    ∧ [obj15].length ≠ 2 := ⟨by decide, by decide⟩

/-- Claim C2 amended: when every occurrence of a duplicated id is served
from cache, the returned sequence has the same length as the input and
repeats the id's object once per occurrence (in ascending sorted order);
when any id has to be fetched, the merge is keyed by id, so the returned
sequence carries one element per distinct id (its id projection has no
duplicates). -/
theorem C2_duplicates_cached_kept_fetched_collapsed :
    (∀ (cfg : Config) (path : String) (l : List Nat) (params0 : Params)
        (apiKey : Option String) (cache : String → Option Obj)
        (decodeD : String → Option DetailData) (resp : Response),
      (∀ i ∈ l, (cache (perIdKey (requestCK cfg path params0 apiKey) i)).isSome) →
      (apiDetailsRequest cfg path (.arr l) params0 apiKey cache decodeD
          resp).result
        = .resolvedV (.objs ((sortIds l).filterMap
            (fun i => cache (perIdKey (requestCK cfg path params0 apiKey) i))))
      ∧ ((sortIds l).filterMap
            (fun i => cache (perIdKey (requestCK cfg path params0 apiKey) i))).length
          = l.length)
    ∧ (∀ (cfg : Config) (path : String) (l : List Nat) (params0 : Params)
        (apiKey : Option String) (cache : String → Option Obj)
        (decodeD : String → Option DetailData) (resp : Response)
        (fetched : List Obj),
      (∀ i o, cache (perIdKey (requestCK cfg path params0 apiKey) i) = some o
        → o.id = i) →
      missingIds cache (requestCK cfg path params0 apiKey) l ≠ [] →
      requestDetail decodeD resp = .ok (.arr fetched) →
      ∃ res,
        (apiDetailsRequest cfg path (.arr l) params0 apiKey cache decodeD
            resp).result = .resolvedV (.objs res)
        ∧ (res.map Obj.id).Nodup) := by
  constructor
  · intro cfg path l params0 apiKey cache decodeD resp hall
    have hm : missingIds cache (requestCK cfg path params0 apiKey) l = [] :=
      missingIds_isEmpty_iff.mpr hall
    rw [detail_arr_allCached cfg path l params0 apiKey cache decodeD resp hm]
    refine ⟨rfl, ?_⟩
    rw [length_filterMap_of_all_isSome (fun i hi => hall i (mem_sortIds.mp hi))]
    exact (sortIds_perm l).length_eq
  · intro cfg path l params0 apiKey cache decodeD resp fetched hcons hm hok
    refine ⟨_, by rw [detail_arr_fetchOk cfg path l params0 apiKey cache
      decodeD resp fetched hm hok], ?_⟩
    rw [jsObjectValues_map_id (mergeLookup_inv hcons)]
    exact ((sortIds_perm _).nodup_iff).mpr (mergeLookup_nodupKeys cache _ l fetched)

/-- Claim C2 witness: both parts of the amended claim at concrete inputs —
[15, 15] fully cached comes back as two copies of the id-15 object, and
[15, 15] fetched comes back with a duplicate-free id projection. -/
theorem C2_witness :
    ((apiDetailsRequest cfgEx "items" (.arr [15, 15]) [] none cacheBoth
        decodeNone respOK).result
      = .resolvedV (.objs [obj15, obj15]))
    ∧ (∃ res,
        (apiDetailsRequest cfgEx "items" (.arr [15, 15]) [] none cacheNoObj
            decode15 respOK).result = .resolvedV (.objs res)
        ∧ (res.map Obj.id).Nodup) := by
  constructor
  · have h := (C2_duplicates_cached_kept_fetched_collapsed.1 cfgEx "items"
      [15, 15] [] none cacheBoth decodeNone respOK (by decide)).1
    rw [h]
    decide
  · exact C2_duplicates_cached_kept_fetched_collapsed.2 cfgEx "items"
      [15, 15] [] none cacheNoObj decode15 respOK [obj15]
      (fun i o h => absurd h (by simp [cacheNoObj]))
      (by decide) rfl

/-- Claim C3 counterexample: when no requested id is cached and the
upstream call fails (status 500), the detail fetch does not propagate the
failure — its promise resolves normally with the error object as the
resolved value. -/
theorem C3_counterexample :
    (apiDetailsRequest cfgEx "items" (.arr [15, 2016]) [] none cacheNoObj
        decodeNone respFail).result
      = .resolvedV (.err (.upstream 500 "oops")) := by decide

/-- Claim C3 amended: when the transport call for the missing ids fails,
a detail fetch with at least one cached id resolves with the cached subset
(one object per distinct cached id, in ascending id order) and performs no
cache write; and when no requested id was resolvable the call does not
reject — it resolves normally with the error object as its value. -/
theorem C3_partial_failure_degrades (cfg : Config) (path : String)
    (l : List Nat) (params0 : Params) (apiKey : Option String)
    (cache : String → Option Obj) (decodeD : String → Option DetailData)
    (resp : Response) (e : JsError)
    (hcons : ∀ i o,
      cache (perIdKey (requestCK cfg path params0 apiKey) i) = some o → o.id = i)
    (hmiss : missingIds cache (requestCK cfg path params0 apiKey) l ≠ [])
    (herr : requestDetail decodeD resp = .error e) :
    (lkOfCached cache (requestCK cfg path params0 apiKey) l ≠ [] →
      (apiDetailsRequest cfg path (.arr l) params0 apiKey cache decodeD
          resp).result
        = .resolvedV (.objs (jsObjectValues
            (lkOfCached cache (requestCK cfg path params0 apiKey) l)))
      ∧ (∀ i ∈ l, ∀ o,
          cache (perIdKey (requestCK cfg path params0 apiKey) i) = some o →
          o ∈ jsObjectValues (lkOfCached cache (requestCK cfg path params0 apiKey) l))
      ∧ List.Sorted (· ≤ ·) ((jsObjectValues
          (lkOfCached cache (requestCK cfg path params0 apiKey) l)).map Obj.id))
    ∧ (lkOfCached cache (requestCK cfg path params0 apiKey) l = [] →
      (apiDetailsRequest cfg path (.arr l) params0 apiKey cache decodeD
          resp).result = .resolvedV (.err e))
    ∧ (apiDetailsRequest cfg path (.arr l) params0 apiKey cache decodeD
        resp).writes = [] := by
  rw [detail_arr_fetchErr cfg path l params0 apiKey cache decodeD resp e
    hmiss herr]
  refine ⟨?_, ?_, rfl⟩
  · intro hne
    rw [if_neg (by rw [List.isEmpty_iff]; exact hne)]
    refine ⟨rfl, ?_, jsObjectValues_sorted (lkOfCached_inv hcons)⟩
    intro i hi o hc
    exact mem_jsObjectValues (lkOfCached_nodupKeys cache _ l)
      (mem_lkOfCached_of_cached hi hc)
  · intro he
    rw [if_pos (by rw [List.isEmpty_iff]; exact he)]

/-- Claim C3 witness: ids [2016, 15, 7] with 15 and 2016 cached and id 7
missing; the failed fetch degrades to the cached pair, ascending. -/
theorem C3_witness :
    (apiDetailsRequest cfgEx "items" (.arr [2016, 15, 7]) [] none cacheBoth
        decodeNone respFail).result
      = .resolvedV (.objs (jsObjectValues (lkOfCached cacheBoth
          (requestCK cfgEx "items" [] none) [2016, 15, 7])))
    ∧ obj15 ∈ jsObjectValues (lkOfCached cacheBoth
        (requestCK cfgEx "items" [] none) [2016, 15, 7]) := by
  have h := C3_partial_failure_degrades cfgEx "items" [2016, 15, 7] [] none
    cacheBoth decodeNone respFail (.upstream 500 "oops") cacheBoth_cons
    (by decide) rfl
  obtain ⟨hres, hmem, -⟩ := h.1 (by decide)
  exact ⟨hres, hmem 15 (by decide) obj15 (by decide)⟩

/-- Claim C7 counterexample: with id 15 cached and id 2016 missing, the
single transport call carries the comma-join parameter ids=2016, not a
single id parameter, even though exactly one id is missing. -/
theorem C7_counterexample :
    (apiDetailsRequest cfgEx "items" (.arr [15, 2016]) [] none cache15only
        decode2016 respOK).calls
      = [[("ids", PVal.str "2016")]]
    ∧ (apiDetailsRequest cfgEx "items" (.arr [15, 2016]) [] none cache15only
        decode2016 respOK).calls
      ≠ [[("id", PVal.num 2016)]] := ⟨by decide, by decide⟩

/-- Claim C7 amended: on a partial cache hit, exactly one transport call
is issued and its query parameters name exactly the missing ids as a
comma-joined list under the plural ids parameter (also when exactly one id
is missing); none of the missing ids was cached; and on a successful array
response whose objects carry missing ids (one object per missing id), the
returned sequence contains every cached object and every fetched object,
in ascending id order. -/
theorem C7_partial_hit_fetches_missing (cfg : Config) (path : String)
    (l : List Nat) (params0 : Params) (apiKey : Option String)
    (cache : String → Option Obj) (decodeD : String → Option DetailData)
    (resp : Response) (fetched : List Obj)
    (hcons : ∀ i o,
      cache (perIdKey (requestCK cfg path params0 apiKey) i) = some o → o.id = i)
    (hmiss : missingIds cache (requestCK cfg path params0 apiKey) l ≠ [])
    (hok : requestDetail decodeD resp = .ok (.arr fetched))
    (hfids : ∀ o ∈ fetched,
      o.id ∈ missingIds cache (requestCK cfg path params0 apiKey) l)
    (hfnd : (fetched.map Obj.id).Nodup) :
    (apiDetailsRequest cfg path (.arr l) params0 apiKey cache decodeD
        resp).calls
      = [[("ids", .str (joinIds
          (missingIds cache (requestCK cfg path params0 apiKey) l)))]]
    ∧ (∀ i ∈ missingIds cache (requestCK cfg path params0 apiKey) l,
        cache (perIdKey (requestCK cfg path params0 apiKey) i) = none)
    ∧ ∃ res,
        (apiDetailsRequest cfg path (.arr l) params0 apiKey cache decodeD
            resp).result = .resolvedV (.objs res)
        ∧ (∀ i ∈ l, ∀ o,
            cache (perIdKey (requestCK cfg path params0 apiKey) i) = some o →
            o ∈ res)
        ∧ (∀ o ∈ fetched, o ∈ res)
        ∧ List.Sorted (· ≤ ·) (res.map Obj.id) := by
  rw [detail_arr_fetchOk cfg path l params0 apiKey cache decodeD resp fetched
    hmiss hok]
  refine ⟨rfl, ?_, _, rfl, ?_, ?_, ?_⟩
  · intro i hi
    exact (mem_missingIds.mp hi).2
  · intro i hi o hc
    exact mem_jsObjectValues (mergeLookup_nodupKeys cache _ l fetched)
      (mem_mergeLookup_of_cached hi hc hfids)
  · intro o ho
    exact mem_jsObjectValues (mergeLookup_nodupKeys cache _ l fetched)
      (mem_mergeLookup_of_fetched ho hfnd)
  · exact jsObjectValues_sorted (mergeLookup_inv hcons)

/-- Claim C7 witness: the amended claim at the spec's own scenario — id 15
cached, id 2016 fetched; the call requests only 2016 and the result holds
both objects, ascending. -/
theorem C7_witness :
    (apiDetailsRequest cfgEx "items" (.arr [15, 2016]) [] none cache15only
        decode2016 respOK).calls
      = [[("ids", PVal.str "2016")]]
    ∧ ∃ res,
        (apiDetailsRequest cfgEx "items" (.arr [15, 2016]) [] none cache15only
            decode2016 respOK).result = .resolvedV (.objs res)
        ∧ obj15 ∈ res ∧ obj2016 ∈ res := by
  have h := C7_partial_hit_fetches_missing cfgEx "items" [15, 2016] [] none
    cache15only decode2016 respOK [obj2016] cache15only_cons (by decide) rfl
    (by decide) (by decide)
  obtain ⟨res, hres, hc, hf, -⟩ := h.2.2
  refine ⟨by rw [h.1]; decide, res, hres,
    hc 15 (by decide) obj15 (by decide), hf obj2016 (by decide)⟩

/-- Claim C9 counterexample: an ids argument that is neither a valid
identifier nor a sequence (the boolean true) raises no error at all: the
call probes the cache under the key fragment "true", issues a transport
call with it as the single id parameter, and resolves normally. -/
theorem C9_counterexample :
    apiDetailsRequest cfgEx "items" (.scalar (.boolean true)) [] none
        cacheNoObj (fun _ => some (.single ⟨3, "z"⟩)) respOK
      = { result := .resolvedV (.obj ⟨3, "z"⟩)
          probes := [requestCK cfgEx "items" [] none ++ "#" ++ "true"]
          calls := [[("id", .boolean true)]]
          writes := [(perIdKey (requestCK cfgEx "items" [] none) 3, ⟨3, "z"⟩)] } := by
  decide

/-- Claim C9 amended: the canonical implementation performs no id
validation — a truthy non-array ids value of any shape is handled exactly
like a single id: one per-id cache probe is issued, and on a miss one
transport call with the value under the single id parameter; on a
single-object response the call resolves normally with that object and
caches it. No InvalidArgumentError exists on this path. -/
theorem C9_no_fail_fast_validation (cfg : Config) (path : String)
    (params0 : Params) (apiKey : Option String) (cache : String → Option Obj)
    (decodeD : String → Option DetailData) (resp : Response) (v : SVal)
    (o : Obj)
    (htr : truthySVal v = true)
    (hmiss : cache (requestCK cfg path params0 apiKey ++ "#" ++ svalKeyStr v)
      = none)
    (hok : requestDetail decodeD resp = .ok (.single o)) :
    apiDetailsRequest cfg path (.scalar v) params0 apiKey cache decodeD resp
      = { result := .resolvedV (.obj o)
          probes := [requestCK cfg path params0 apiKey ++ "#" ++ svalKeyStr v]
          calls := [[("id", svalToPVal v)]]
          writes := [(perIdKey (requestCK cfg path params0 apiKey) o.id, o)] } := by
  simp only [apiDetailsRequest]
  rw [htr]
  simp only [if_true]
  rw [hmiss]
  rw [svalLenLeZero_false_of_truthy htr]
  simp only [Bool.false_eq_true, if_false, detailFetch]
  rw [hok]
  rfl

/-- Claim C9 witness: the amended claim at the counterexample's input. -/
theorem C9_witness :
    apiDetailsRequest cfgEx "items" (.scalar (.boolean true)) [] none
        cacheNoObj (fun _ => some (.single ⟨3, "z"⟩)) respOK
      = { result := .resolvedV (.obj ⟨3, "z"⟩)
          probes := [requestCK cfgEx "items" [] none ++ "#" ++ "true"]
          calls := [[("id", .boolean true)]]
          writes := [(perIdKey (requestCK cfgEx "items" [] none) 3, ⟨3, "z"⟩)] } :=
  C9_no_fail_fast_validation cfgEx "items" [] none cacheNoObj
    (fun _ => some (.single ⟨3, "z"⟩)) respOK (.boolean true) ⟨3, "z"⟩
    rfl rfl rfl

/-! ### Key-derivation separation lemmas -/

theorem pvalChars_isSome {v : PVal} (hv : v ≠ .undefined) :
    ∃ c, pvalChars v = some c := by
  cases v with
  | str s => exact ⟨_, rfl⟩
  | num n => exact ⟨_, rfl⟩
  | boolean b => cases b <;> exact ⟨_, rfl⟩
  | undefined => exact absurd rfl hv

/-- Two parameter objects that agree everywhere except in one defined
value serialize differently. -/
theorem stringifyChars_value_ne (pre post : Params) (k : String) {v w : PVal}
    (hv : v ≠ .undefined) (hw : w ≠ .undefined) (hvw : v ≠ w) :
    stringifyChars (pre ++ (k, v) :: post)
      ≠ stringifyChars (pre ++ (k, w) :: post) := by
  obtain ⟨cv, hcv⟩ := pvalChars_isSome hv
  obtain ⟨cw, hcw⟩ := pvalChars_isSome hw
  intro h
  unfold stringifyChars at h
  rw [List.filterMap_append, List.filterMap_append,
    List.filterMap_cons, List.filterMap_cons] at h
  have hfv : fieldChars k v = some (quoteChars k.data ++ ':' :: cv) := by
    unfold fieldChars
    rw [hcv]
    rfl
  have hfw : fieldChars k w = some (quoteChars k.data ++ ':' :: cw) := by
    unfold fieldChars
    rw [hcw]
    rfl
  rw [hfv, hfw] at h
  simp only [List.cons.injEq, true_and] at h
  have h3 := List.append_cancel_right h
  rw [joinComma_split, joinComma_split] at h3
  have h4 := List.append_cancel_left (List.append_cancel_right h3)
  have h5 := List.append_cancel_left h4
  have h6 : cv = cw := by
    injection h5
  apply hvw
  apply pvalChars_injective hv hw
  rw [hcv, hcw, h6]

/-- Changing one defined parameter value changes the cache key. -/
theorem cacheKeyOf_value_ne (path : String) (apiKey : Option String)
    (pre post : Params) (k : String) {v w : PVal}
    (hv : v ≠ .undefined) (hw : w ≠ .undefined) (hvw : v ≠ w) :
    cacheKeyOf path apiKey (pre ++ (k, v) :: post)
      ≠ cacheKeyOf path apiKey (pre ++ (k, w) :: post) := by
  intro h
  apply stringifyChars_value_ne pre post k hv hw hvw
  have hd := congrArg String.data h
  cases apiKey with
  | none =>
    simp only [cacheKeyOf, cacheKeyChars] at hd
    have h2 := List.append_cancel_left hd
    simpa only [List.cons.injEq, true_and] using h2
  | some key =>
    simp only [cacheKeyOf, cacheKeyChars] at hd
    have h2 := List.append_cancel_left hd
    simpa only [List.cons.injEq, true_and] using h2

/-- Changing the API key changes the cache key. -/
theorem cacheKeyOf_apiKey_ne (path : String) (k1 k2 : String) (ps : Params)
    (hk : k1 ≠ k2) :
    cacheKeyOf path (some k1) ps ≠ cacheKeyOf path (some k2) ps := by
  intro h
  apply hk
  have hd := congrArg String.data h
  simp only [cacheKeyOf, cacheKeyChars] at hd
  have h2 := List.append_cancel_right hd
  have h3 := List.append_cancel_left h2
  simp only [List.cons.injEq, true_and] at h3
  exact string_eq_of_data h3

/-- Supplying an API key changes the cache key. -/
theorem cacheKeyOf_apiKey_presence_ne (path k : String) (ps : Params) :
    cacheKeyOf path (some k) ps ≠ cacheKeyOf path none ps := by
  intro h
  have hd := congrArg (fun s : String => s.data.length) h
  simp only [cacheKeyOf, cacheKeyChars, List.length_append,
    List.length_cons] at hd
  omega

/-- Dropping undefined-valued properties does not change the cache key. -/
theorem cacheKeyOf_dropUndefined (path : String) (apiKey : Option String)
    (a b : Params) (h : dropUndefined a = dropUndefined b) :
    cacheKeyOf path apiKey a = cacheKeyOf path apiKey b := by
  have hs : stringifyChars a = stringifyChars b := by
    rw [← stringifyChars_dropUndefined a, ← stringifyChars_dropUndefined b, h]
  cases apiKey <;> simp [cacheKeyOf, cacheKeyChars, hs]

/-- Claim C8 counterexample: two structurally equal parameter objects (the
same key-value pairs, permuted insertion order) produce different key
strings — JSON serialization depends on property insertion order. -/
theorem C8_counterexample :
    paramsOrderA.Perm paramsOrderB
    ∧ cacheKeyOf "items" none paramsOrderA
        ≠ cacheKeyOf "items" none paramsOrderB := ⟨by decide, by decide⟩

/-- Claim C8 amended: the cache-key derivation is a deterministic function
of the path, the API key, and the parameter object's property sequence
with undefined-valued properties dropped — structurally equal parameter
objects collide only when their property insertion order agrees; and two
requests identical except in a single defined parameter value (language
included), in the API key, or in API-key presence produce different key
strings. -/
theorem C8_cache_key_separation (path : String) :
    (∀ (apiKey : Option String) (a b : Params), dropUndefined a = dropUndefined b →
      cacheKeyOf path apiKey a = cacheKeyOf path apiKey b)
    ∧ (∀ (apiKey : Option String) (pre post : Params) (k : String)
        (v w : PVal), v ≠ .undefined → w ≠ .undefined → v ≠ w →
      cacheKeyOf path apiKey (pre ++ (k, v) :: post)
        ≠ cacheKeyOf path apiKey (pre ++ (k, w) :: post))
    ∧ (∀ (k1 k2 : String) (ps : Params), k1 ≠ k2 →
      cacheKeyOf path (some k1) ps ≠ cacheKeyOf path (some k2) ps)
    ∧ (∀ (k : String) (ps : Params),
      cacheKeyOf path (some k) ps ≠ cacheKeyOf path none ps) :=
  ⟨fun apiKey a b h => cacheKeyOf_dropUndefined path apiKey a b h,
   fun apiKey pre post k _v _w hv hw hvw =>
     cacheKeyOf_value_ne path apiKey pre post k hv hw hvw,
   fun k1 k2 ps hk => cacheKeyOf_apiKey_ne path k1 k2 ps hk,
   fun k ps => cacheKeyOf_apiKey_presence_ne path k ps⟩

/-- Claim C8 witness: each separation at a concrete input — an undefined
page_size does not change the key, changing the language value does, and
so do changing or adding an API key. -/
theorem C8_witness :
    cacheKeyOf "items" none [("page", .num 1), ("page_size", .undefined)]
        = cacheKeyOf "items" none [("page", .num 1)]
    ∧ cacheKeyOf "items" none [("page", .num 1), ("lang", .str "en")]
        ≠ cacheKeyOf "items" none [("page", .num 1), ("lang", .str "es")]
    ∧ cacheKeyOf "items" (some "K1") [("lang", .str "en")]
        ≠ cacheKeyOf "items" (some "K2") [("lang", .str "en")]
    ∧ cacheKeyOf "items" (some "K1") [("lang", .str "en")]
        ≠ cacheKeyOf "items" none [("lang", .str "en")] := by
  refine ⟨(C8_cache_key_separation "items").1 none _ _ (by decide), ?_, ?_, ?_⟩
  · exact (C8_cache_key_separation "items").2.1 none [("page", .num 1)] []
      "lang" (.str "en") (.str "es") (by decide) (by decide) (by decide)
  · exact (C8_cache_key_separation "items").2.2.1 "K1" "K2"
      [("lang", .str "en")] (by decide)
  · exact (C8_cache_key_separation "items").2.2.2 "K1" [("lang", .str "en")]

end GW2
